import Mathlib

/-!
Verification of the Dots and Lines game-state logic.

This file embeds the turn/scoring state machine of `game.js`
(`handleLineDrawAttempt`, `findCompletedBoxes`, `respawnSpecialSquares`,
`useBankedTurn`, `calculateSabotageEffect`) and the initial special-square
placement of `firebase.js` (`generateSpecialSquares`) as pure Lean functions,
and proves the specified properties about them.

Modelling conventions:
* String keys `"row,col"` and `"row,col,dir"` become the structured keys
  `RC` and `LineKey`; the JS string encoding is injective on naturals, so
  this is faithful.
* The shared-document maps (`lines`, `boxes`) become association lists with
  lookup, overwrite-insert, and remove operations mirroring Firebase
  partial updates (`null` deletes a path).
* JS numbers used as scores / banked turns become `Int`.
* `Math.random`-driven shuffles are modelled by their outcome: the shuffle
  is a parameter (`shuffle : List RC → List RC`); the code always produces
  a permutation of its input, and theorems that need this take it as a
  hypothesis.  Quantifying over such parameters quantifies over every
  randomness outcome.
-/

namespace DotsAndLines

/-- Direction of a line: horizontal or vertical (JS `'h'` / `'v'`). -/
inductive Dir where
  | h
  | v
deriving DecidableEq, Repr

/-- A `"row,col"` key, used both for box coordinates and for dots. -/
structure RC where
  row : Nat
  col : Nat
deriving DecidableEq, Repr

/-- A `"row,col,dir"` line key (JS `getLineKey`). -/
structure LineKey where
  row : Nat
  col : Nat
  dir : Dir
deriving DecidableEq, Repr

/-- Box type stored in `boxes` and implied by `specialSquares`. -/
inductive BoxType where
  | normal
  | golden
  | penalty
deriving DecidableEq, Repr

/-- Game status enum. -/
inductive GStatus where
  | waiting
  | active
  | finished
deriving DecidableEq, Repr

/-- Value stored at `boxes/<key>`: `{ownerId, type}`. -/
structure BoxVal where
  ownerId : Nat
  type : BoxType
deriving DecidableEq, Repr

/-- The per-player fields the state machine reads and writes. -/
structure Player where
  score : Int
  bankedTurns : Int
deriving DecidableEq, Repr

/-- The `specialSquares` sub-document: golden and penalty box keys. -/
structure SpecialSquares where
  golden : List RC
  penalty : List RC
deriving DecidableEq, Repr

/-- The slice of the module-level `sabotageState` the move handler reads. -/
structure SabotageState where
  prohibitedDot : Option RC
  anchoredDot : Option RC
deriving DecidableEq, Repr

/-- The shared game document (the fields the verified logic touches). -/
structure GameState where
  gridSize : Nat
  playerCount : Nat
  playersArray : List Player
  currentPlayerIndex : Nat
  status : GStatus
  lines : List (LineKey × Nat)
  boxes : List (RC × BoxVal)
  specialSquares : SpecialSquares
deriving DecidableEq, Repr

/-- Association-list lookup (JS object property access). -/
def alookup {α β : Type} [DecidableEq α] (k : α) : List (α × β) → Option β
  | [] => none
  | p :: t => if p.1 = k then some p.2 else alookup k t

/-- Removal of a path (Firebase `update` setting `null`). -/
def aremove {α β : Type} [DecidableEq α] (k : α) : List (α × β) → List (α × β)
  | [] => []
  | p :: t => if p.1 = k then aremove k t else p :: aremove k t

/-- Overwrite-insert for a path (Firebase `update` setting a value). -/
def ainsert {α β : Type} [DecidableEq α] (k : α) (v : β) (l : List (α × β)) :
    List (α × β) :=
  (k, v) :: aremove k l

/-- JS `const gridSize = gameState.gridSize || 6`. -/
def gridSizeOr6 (gs : GameState) : Nat :=
  if gs.gridSize = 0 then 6 else gs.gridSize

/-- JS `getLineKey(row, col, direction)`. -/
def getLineKey (row col : Nat) (dir : Dir) : LineKey :=
  ⟨row, col, dir⟩

/-- JS `getBoxKey(row, col)`. -/
def getBoxKey (row col : Nat) : RC :=
  ⟨row, col⟩

/-- JS `gameState.playersArray[i]?.score || 0` (also matches `?? 0`: both give
the stored value for any stored integer and `0` for a missing player). -/
def scoreOf (gs : GameState) (i : Nat) : Int :=
  ((gs.playersArray[i]?).map Player.score).getD 0

/-- JS `gameState.playersArray[i]?.bankedTurns || 0` (also matches `?? 0`). -/
def bankedOf (gs : GameState) (i : Nat) : Int :=
  ((gs.playersArray[i]?).map Player.bankedTurns).getD 0

/-- JS `lineExists(row, col, direction)`. -/
def lineExists (gs : GameState) (row col : Nat) (dir : Dir) : Bool :=
  (alookup (getLineKey row col dir) gs.lines).isSome

/-- JS `isMyTurn()`: active game and `currentPlayerIndex === localPlayerIndex`. -/
def isMyTurn (gs : GameState) (localPlayerIndex : Nat) : Bool :=
  decide (gs.status = GStatus.active) &&
    decide (gs.currentPlayerIndex = localPlayerIndex)

/-- JS `getSpecialSquareType(row, col)`: golden is checked before penalty. -/
def getSpecialSquareType (gs : GameState) (row col : Nat) : BoxType :=
  if getBoxKey row col ∈ gs.specialSquares.golden then BoxType.golden
  else if getBoxKey row col ∈ gs.specialSquares.penalty then BoxType.penalty
  else BoxType.normal

/-- JS `isLineProhibited(row, col, direction)`: the line touches the
currently prohibited dot. -/
def isLineProhibited (sab : SabotageState) (row col : Nat) (dir : Dir) : Bool :=
  match sab.prohibitedDot with
  | none => false
  | some p =>
    match dir with
    | Dir.h => decide ((row = p.row ∧ col = p.col) ∨ (row = p.row ∧ col + 1 = p.col))
    | Dir.v => decide ((row = p.row ∧ col = p.col) ∨ (row + 1 = p.row ∧ col = p.col))

/-- JS `lineUsesAnchoredDot(row, col, direction)`: true when no anchor is set. -/
def lineUsesAnchoredDot (sab : SabotageState) (row col : Nat) (dir : Dir) : Bool :=
  match sab.anchoredDot with
  | none => true
  | some a =>
    match dir with
    | Dir.h => decide ((row = a.row ∧ col = a.col) ∨ (row = a.row ∧ col + 1 = a.col))
    | Dir.v => decide ((row = a.row ∧ col = a.col) ∨ (row + 1 = a.row ∧ col = a.col))

/-- Lookup in `tempLines`: the proposed line is added on top of `lines`
(`findCompletedBoxes` builds `tempLines` this way). -/
def tempLineLookup (gs : GameState) (localPlayerIndex : Nat) (newKey k : LineKey) :
    Option Nat :=
  if k = newKey then some localPlayerIndex else alookup k gs.lines

/-- The `isComplete` helper inside `findCompletedBoxes`: all four sides of
box `(r, c)` are present in `tempLines`. -/
def isCompleteTemp (gs : GameState) (localPlayerIndex : Nat) (newKey : LineKey)
    (r c : Nat) : Bool :=
  (tempLineLookup gs localPlayerIndex newKey (getLineKey r c Dir.h)).isSome &&
  (tempLineLookup gs localPlayerIndex newKey (getLineKey (r + 1) c Dir.h)).isSome &&
  (tempLineLookup gs localPlayerIndex newKey (getLineKey r c Dir.v)).isSome &&
  (tempLineLookup gs localPlayerIndex newKey (getLineKey r (c + 1) Dir.v)).isSome

/-- The `boxesToCheck` list in `findCompletedBoxes`: the 0-2 boxes a line
can border, bounded by the grid edges. -/
def boxesToCheck (gs : GameState) (row col : Nat) (dir : Dir) : List RC :=
  let boxCount := gs.gridSize - 1
  match dir with
  | Dir.h =>
    (if 0 < row then [⟨row - 1, col⟩] else []) ++
    (if row < boxCount then [⟨row, col⟩] else [])
  | Dir.v =>
    (if 0 < col then [⟨row, col - 1⟩] else []) ++
    (if col < boxCount then [⟨row, col⟩] else [])

/-- JS `findCompletedBoxes(row, col, direction)`: the not-yet-owned bordering
boxes all four of whose sides are present once the proposed line is added,
paired with their special type. -/
def findCompletedBoxes (gs : GameState) (localPlayerIndex : Nat)
    (row col : Nat) (dir : Dir) : List (RC × BoxType) :=
  let newKey := getLineKey row col dir
  (boxesToCheck gs row col dir).filterMap fun b =>
    if (alookup b gs.boxes).isSome then none
    else if isCompleteTemp gs localPlayerIndex newKey b.row b.col then
      some (b, getSpecialSquareType gs b.row b.col)
    else none

/-- All box coordinates of a `boxCount × boxCount` board in row-major
order (the nested loops of `respawnSpecialSquares` / `generateSpecialSquares`). -/
def allBoxPositions (boxCount : Nat) : List RC :=
  (List.range boxCount).flatMap fun r => (List.range boxCount).map fun c => ⟨r, c⟩

/-- The unoccupied boxes `respawnSpecialSquares` may respawn into: in-grid,
not completed (also not just completed this move), and not still special. -/
def respawnUnoccupied (gs : GameState)
    (goldenToRespawn penaltyToRespawn justCompleted : List RC) : List RC :=
  let boxCount := gridSizeOr6 gs - 1
  let newGolden := gs.specialSquares.golden.filter (fun k => k ∉ goldenToRespawn)
  let newPenalty := gs.specialSquares.penalty.filter (fun k => k ∉ penaltyToRespawn)
  (allBoxPositions boxCount).filter fun k =>
    (alookup k gs.boxes).isNone && decide (k ∉ justCompleted) &&
      decide (k ∉ newGolden) && decide (k ∉ newPenalty)

/-- JS `respawnSpecialSquares(goldenToRespawn, penaltyToRespawn, justCompleted)`.
Consumed squares are dropped from their lists and replacements are drawn from
the shuffled unoccupied coordinates: golden first, then penalty, as long as
candidates remain. -/
def respawnSpecialSquares (gs : GameState)
    (goldenToRespawn penaltyToRespawn justCompleted : List RC)
    (shuffle : List RC → List RC) : SpecialSquares :=
  let newGolden := gs.specialSquares.golden.filter (fun k => k ∉ goldenToRespawn)
  let newPenalty := gs.specialSquares.penalty.filter (fun k => k ∉ penaltyToRespawn)
  let shuffled := shuffle (respawnUnoccupied gs goldenToRespawn penaltyToRespawn justCompleted)
  { golden := newGolden ++ shuffled.take goldenToRespawn.length
    penalty := newPenalty ++ (shuffled.drop goldenToRespawn.length).take penaltyToRespawn.length }

/-- JS `generateSpecialSquares(gridSize)` from `firebase.js`: shuffle all box
positions and take 1-2 golden and then 1-2 penalty squares off the front.
There is no constraint on the chosen coordinates. -/
def generateSpecialSquares (gridSize : Nat) (shuffle : List RC → List RC)
    (goldenCount penaltyCount : Nat) : SpecialSquares :=
  let boxCount := gridSize - 1
  let shuffled := shuffle (allBoxPositions boxCount)
  { golden := shuffled.take goldenCount
    penalty := (shuffled.drop goldenCount).take penaltyCount }

/-- The loop accumulator of the completed-box loop in `handleLineDrawAttempt`:
the `updates` written so far plus the local flags. -/
structure LoopAcc where
  boxUpdates : List (RC × BoxVal)
  earnedTurn : Bool
  forfeitTurn : Bool
  pointsEarned : Nat
  goldenToRespawn : List RC
  penaltyToRespawn : List RC
  bankedTurnsUpdate : Option Int
deriving DecidableEq, Repr

/-- Initial accumulator (no boxes processed yet, no updates staged). -/
def initLoopAcc : LoopAcc :=
  ⟨[], false, false, 0, [], [], none⟩

/-- One iteration of `for (const box of completedBoxes)`: stage the box
update, count the point, and handle the special-square effect.  Note the
golden branch reads `bankedTurns` from the *state*, not from the staged
updates, so a second golden box in the same move overwrites the staged
value with the same `currentBanked + 1`. -/
def loopStep (gs : GameState) (localPlayerIndex : Nat) (acc : LoopAcc)
    (box : RC × BoxType) : LoopAcc :=
  let acc := { acc with
    boxUpdates := acc.boxUpdates ++ [(box.1, ⟨localPlayerIndex, box.2⟩)]
    pointsEarned := acc.pointsEarned + 1 }
  match box.2 with
  | BoxType.golden =>
    { acc with
      bankedTurnsUpdate := some (bankedOf gs localPlayerIndex + 1)
      earnedTurn := true
      goldenToRespawn := acc.goldenToRespawn ++ [box.1] }
  | BoxType.penalty =>
    { acc with
      forfeitTurn := true
      penaltyToRespawn := acc.penaltyToRespawn ++ [box.1] }
  | BoxType.normal => acc

/-- The set of field updates `handleLineDrawAttempt` publishes as one
partial update.  `none` in an `Option` field means the path is absent from
the published update (the field keeps its previous value). -/
structure MoveUpdates where
  lineKey : LineKey
  lineOwner : Nat
  playerIdx : Nat
  boxUpdates : List (RC × BoxVal)
  bankedTurnsUpdate : Option Int
  scoreUpdate : Option Int
  specialSquaresUpdate : Option SpecialSquares
  currentPlayerIndexUpdate : Option Nat
  statusUpdate : Option GStatus
deriving DecidableEq, Repr

/-- The accepted-move body of `handleLineDrawAttempt` (everything after the
precondition checks): process completed boxes, respawn specials, update the
score, decide the next turn, and detect game over. -/
def processMove (gs : GameState) (localPlayerIndex : Nat)
    (row col : Nat) (dir : Dir) (shuffle : List RC → List RC) : MoveUpdates :=
  let completedBoxes := findCompletedBoxes gs localPlayerIndex row col dir
  let acc := completedBoxes.foldl (loopStep gs localPlayerIndex) initLoopAcc
  let specialUpd : Option SpecialSquares :=
    if !acc.goldenToRespawn.isEmpty || !acc.penaltyToRespawn.isEmpty then
      some (respawnSpecialSquares gs acc.goldenToRespawn acc.penaltyToRespawn
        (completedBoxes.map Prod.fst) shuffle)
    else none
  let scoreUpd : Option Int :=
    if 0 < acc.pointsEarned then
      some (scoreOf gs localPlayerIndex + (acc.pointsEarned : Int))
    else none
  let turn : Option Int × Option Nat :=
    if !completedBoxes.isEmpty && !acc.forfeitTurn then
      (acc.bankedTurnsUpdate, none)
    else if acc.forfeitTurn then
      (acc.bankedTurnsUpdate, some ((gs.currentPlayerIndex + 1) % gs.playerCount))
    else
      let currentBanked := acc.bankedTurnsUpdate.getD (bankedOf gs localPlayerIndex)
      if 0 < currentBanked then (some (currentBanked - 1), none)
      else (acc.bankedTurnsUpdate, some ((gs.currentPlayerIndex + 1) % gs.playerCount))
  let statusUpd : Option GStatus :=
    if (gs.gridSize - 1) * (gs.gridSize - 1) ≤ gs.boxes.length + completedBoxes.length
    then some GStatus.finished else none
  { lineKey := getLineKey row col dir
    lineOwner := localPlayerIndex
    playerIdx := localPlayerIndex
    boxUpdates := acc.boxUpdates
    bankedTurnsUpdate := turn.1
    scoreUpdate := scoreUpd
    specialSquaresUpdate := specialUpd
    currentPlayerIndexUpdate := turn.2
    statusUpdate := statusUpd }

/-- JS `handleLineDrawAttempt(row, col, direction)`: `none` models `return
false` before any mutation (no update published); `some u` models a
successful move publishing exactly the updates `u`. -/
def handleLineDrawAttempt (gs : GameState) (localPlayerIndex : Nat)
    (sab : SabotageState) (row col : Nat) (dir : Dir)
    (shuffle : List RC → List RC) : Option MoveUpdates :=
  if !isMyTurn gs localPlayerIndex then none
  else if lineExists gs row col dir then none
  else if isLineProhibited sab row col dir then none
  else if sab.anchoredDot.isSome && !lineUsesAnchoredDot sab row col dir then none
  else some (processMove gs localPlayerIndex row col dir shuffle)

/-- The updates published by `useBankedTurn()`. -/
structure BankedTurnUpdates where
  playerIdx : Nat
  bankedTurnsUpdate : Int
  currentPlayerIndexUpdate : Nat
deriving DecidableEq, Repr

/-- JS `useBankedTurn()`: when the game is active and the caller has a banked
turn, publish `bankedTurns - 1` and `currentPlayerIndex = localPlayerIndex`. -/
def useBankedTurn (gs : GameState) (localPlayerIndex : Nat) :
    Option BankedTurnUpdates :=
  if !decide (gs.status = GStatus.active) then none
  else
    match gs.playersArray[localPlayerIndex]? with
    | none => none
    | some player =>
      if player.bankedTurns ≤ 0 then none
      else some ⟨localPlayerIndex, player.bankedTurns - 1, localPlayerIndex⟩

/-- Paths of generic Firebase partial updates to the game document. -/
inductive GPath where
  | lineP (k : LineKey)
  | boxP (k : RC)
  | playerScoreP (i : Nat)
  | playerBankedP (i : Nat)
  | specialSquaresP
  | currentPlayerIndexP
  | statusP
deriving DecidableEq, Repr

/-- Values of generic Firebase partial updates (`nullV` deletes the path). -/
inductive GVal where
  | nullV
  | natV (n : Nat)
  | intV (i : Int)
  | boxV (b : BoxVal)
  | specialV (s : SpecialSquares)
  | statusV (s : GStatus)
deriving DecidableEq, Repr

/-- The `lines[key] !== undefined` push inside `connectedLines`: the entry
for `lk` when that line exists, nothing otherwise. -/
def lineEntry (gs : GameState) (lk : LineKey) : List (LineKey × Nat) :=
  match alookup lk gs.lines with
  | some o => [(lk, o)]
  | none => []

/-- The `connectedLines` computation in `calculateSabotageEffect`: the
existing lines with the tapped dot as an endpoint, checked in the order
right, down, left, up, with the grid-bound guards of the source. -/
def connectedLines (gs : GameState) (dot : RC) : List (LineKey × Nat) :=
  let g := gridSizeOr6 gs
  (if dot.col < g - 1 then lineEntry gs ⟨dot.row, dot.col, Dir.h⟩ else []) ++
  (if dot.row < g - 1 then lineEntry gs ⟨dot.row, dot.col, Dir.v⟩ else []) ++
  (if 0 < dot.col then lineEntry gs ⟨dot.row, dot.col - 1, Dir.h⟩ else []) ++
  (if 0 < dot.row then lineEntry gs ⟨dot.row - 1, dot.col, Dir.v⟩ else [])

/-- The completed boxes a removed line borders (the per-line body of the
`affectedBoxes` loop, including the presence check `if (boxes[boxKey])`). -/
def sabBoxCandidates (gs : GameState) (boxCount : Nat) (lk : LineKey) : List RC :=
  match lk.dir with
  | Dir.h =>
    (if 0 < lk.row && (alookup ⟨lk.row - 1, lk.col⟩ gs.boxes).isSome
     then [⟨lk.row - 1, lk.col⟩] else []) ++
    (if lk.row < boxCount && (alookup ⟨lk.row, lk.col⟩ gs.boxes).isSome
     then [⟨lk.row, lk.col⟩] else [])
  | Dir.v =>
    (if 0 < lk.col && (alookup ⟨lk.row, lk.col - 1⟩ gs.boxes).isSome
     then [⟨lk.row, lk.col - 1⟩] else []) ++
    (if lk.col < boxCount && (alookup ⟨lk.row, lk.col⟩ gs.boxes).isSome
     then [⟨lk.row, lk.col⟩] else [])

/-- Appending to a JS `Set`: keep insertion order, drop duplicates. -/
def addUnique (acc : List RC) (k : RC) : List RC :=
  if k ∈ acc then acc else acc ++ [k]

/-- The deduplicated `affectedBoxes` of `calculateSabotageEffect`. -/
def sabAffectedBoxes (gs : GameState) (dot : RC) : List RC :=
  let boxCount := gridSizeOr6 gs - 1
  ((connectedLines gs dot).flatMap fun l =>
    sabBoxCandidates gs boxCount l.1).foldl addUnique []

/-- Increment the tally for `i` in the `pointDeductions` object. -/
def bump (l : List (Nat × Nat)) (i : Nat) : List (Nat × Nat) :=
  match alookup i l with
  | some _ => l.map fun p => if p.1 = i then (p.1, p.2 + 1) else p
  | none => l ++ [(i, 1)]

/-- The `pointDeductions` object: boxes lost per owner. -/
def calcDeductions (gs : GameState) (affected : List RC) : List (Nat × Nat) :=
  affected.foldl
    (fun ded k =>
      match alookup k gs.boxes with
      | some b => bump ded b.ownerId
      | none => ded)
    []

/-- The box keys whose entries `calculateSabotageEffect` sets to `null`. -/
def sabotageRemovals (gs : GameState) (dot : RC) : List RC :=
  (sabAffectedBoxes gs dot).filter fun k => (alookup k gs.boxes).isSome

/-- JS `calculateSabotageEffect(dotKey)`: the full update set: box removals,
clamped score write-downs per affected owner, and line removals. -/
def calculateSabotageEffect (gs : GameState) (dot : RC) : List (GPath × GVal) :=
  let cls := connectedLines gs dot
  let ded := calcDeductions gs (sabAffectedBoxes gs dot)
  ((sabotageRemovals gs dot).map fun k => (GPath.boxP k, GVal.nullV)) ++
  (ded.map fun p =>
    (GPath.playerScoreP p.1, GVal.intV (max 0 (scoreOf gs p.1 - (p.2 : Int))))) ++
  (cls.map fun l => (GPath.lineP l.1, GVal.nullV))

/-- Set the score of player `i` (no-op when the index is out of range,
like a Firebase path write into a missing player slot read back through
`playersArray`). -/
def setPlayerScore : List Player → Nat → Int → List Player
  | [], _, _ => []
  | p :: t, 0, v => { p with score := v } :: t
  | p :: t, i + 1, v => p :: setPlayerScore t i v

/-- Set the banked turns of player `i`. -/
def setPlayerBanked : List Player → Nat → Int → List Player
  | [], _, _ => []
  | p :: t, 0, v => { p with bankedTurns := v } :: t
  | p :: t, i + 1, v => p :: setPlayerBanked t i v

/-- Apply one generic path update to the document. -/
def applyGUpdate (gs : GameState) (u : GPath × GVal) : GameState :=
  match u with
  | (GPath.lineP k, GVal.nullV) => { gs with lines := aremove k gs.lines }
  | (GPath.lineP k, GVal.natV n) => { gs with lines := ainsert k n gs.lines }
  | (GPath.boxP k, GVal.nullV) => { gs with boxes := aremove k gs.boxes }
  | (GPath.boxP k, GVal.boxV b) => { gs with boxes := ainsert k b gs.boxes }
  | (GPath.playerScoreP i, GVal.intV v) =>
    { gs with playersArray := setPlayerScore gs.playersArray i v }
  | (GPath.playerBankedP i, GVal.intV v) =>
    { gs with playersArray := setPlayerBanked gs.playersArray i v }
  | (GPath.specialSquaresP, GVal.specialV s) => { gs with specialSquares := s }
  | (GPath.currentPlayerIndexP, GVal.natV n) => { gs with currentPlayerIndex := n }
  | (GPath.statusP, GVal.statusV s) => { gs with status := s }
  | _ => gs

/-- The whole sabotage rollback: compute the update set and apply it. -/
def applySabotage (gs : GameState) (dot : RC) : GameState :=
  (calculateSabotageEffect gs dot).foldl applyGUpdate gs

/-- Apply the partial update published by an accepted move to the shared
document. -/
def applyMoveUpdates (gs : GameState) (u : MoveUpdates) : GameState :=
  let boxes := u.boxUpdates.foldl (fun b p => ainsert p.1 p.2 b) gs.boxes
  let pa := match u.scoreUpdate with
    | some v => setPlayerScore gs.playersArray u.playerIdx v
    | none => gs.playersArray
  let pa := match u.bankedTurnsUpdate with
    | some v => setPlayerBanked pa u.playerIdx v
    | none => pa
  { gs with
    lines := ainsert u.lineKey u.lineOwner gs.lines
    boxes := boxes
    playersArray := pa
    specialSquares := u.specialSquaresUpdate.getD gs.specialSquares
    currentPlayerIndex := u.currentPlayerIndexUpdate.getD gs.currentPlayerIndex
    status := u.statusUpdate.getD gs.status }

/-- An initial game document: empty board, all scores 0, a valid current
player index. -/
def InitialState (gs : GameState) : Prop :=
  gs.boxes = [] ∧ gs.lines = [] ∧ (∀ p ∈ gs.playersArray, p.score = 0) ∧
  gs.playersArray.length = gs.playerCount ∧ 0 < gs.playerCount ∧
  gs.currentPlayerIndex < gs.playerCount

/-- Reachability: initial states, stepping by accepted move processing and
by the sabotage rollback (for any tapped dot and any shuffle outcome). -/
inductive Reachable : GameState → Prop where
  | init (gs : GameState) : InitialState gs → Reachable gs
  | move (gs : GameState) (localPlayerIndex : Nat) (sab : SabotageState)
      (row col : Nat) (dir : Dir) (shuffle : List RC → List RC)
      (u : MoveUpdates) : Reachable gs →
      handleLineDrawAttempt gs localPlayerIndex sab row col dir shuffle = some u →
      Reachable (applyMoveUpdates gs u)
  | sabotage (gs : GameState) (dot : RC) : Reachable gs →
      Reachable (applySabotage gs dot)

/-- Sum of all players' scores. -/
def sumScores (gs : GameState) : Int :=
  (gs.playersArray.map Player.score).sum

/-- Number of completed boxes owned by player `i`. -/
def ownedCount (gs : GameState) (i : Nat) : Nat :=
  gs.boxes.countP fun p => decide (p.2.ownerId = i)

/-! ### The completed-box loop, in closed form -/

/-- No roulette effect active. -/
def sabNone : SabotageState := ⟨none, none⟩

/-- A state in which the vertical line `(2,3,v)` completes box `(2,2)`
(golden) and box `(2,3)` (penalty) in one move. -/
def gsOneGoldenOnePenalty : GameState :=
  { gridSize := 6, playerCount := 2
    playersArray := [⟨3, 0⟩, ⟨0, 0⟩]
    currentPlayerIndex := 0, status := GStatus.active
    lines := [(⟨2, 2, Dir.h⟩, 0), (⟨3, 2, Dir.h⟩, 0), (⟨2, 2, Dir.v⟩, 0),
              (⟨2, 3, Dir.h⟩, 1), (⟨3, 3, Dir.h⟩, 1), (⟨2, 4, Dir.v⟩, 1)]
    boxes := []
    specialSquares := ⟨[⟨2, 2⟩], [⟨2, 3⟩]⟩ }

/-- A state in which the vertical line `(2,3,v)` completes box `(2,2)` and
box `(2,3)`, both golden, in one move; the mover has no banked turns. -/
def gsTwoGolden : GameState :=
  { gridSize := 6, playerCount := 2
    playersArray := [⟨0, 0⟩, ⟨0, 0⟩]
    currentPlayerIndex := 0, status := GStatus.active
    lines := [(⟨2, 2, Dir.h⟩, 0), (⟨3, 2, Dir.h⟩, 0), (⟨2, 2, Dir.v⟩, 0),
              (⟨2, 3, Dir.h⟩, 1), (⟨3, 3, Dir.h⟩, 1), (⟨2, 4, Dir.v⟩, 1)]
    boxes := []
    specialSquares := ⟨[⟨2, 2⟩, ⟨2, 3⟩], []⟩ }

/-- An empty active 2-player board where player 0 holds 2 banked turns. -/
def gsBanked : GameState :=
  { gridSize := 6, playerCount := 2
    playersArray := [⟨0, 2⟩, ⟨0, 0⟩]
    currentPlayerIndex := 0, status := GStatus.active
    lines := [], boxes := [], specialSquares := ⟨[⟨2, 2⟩], [⟨0, 3⟩, ⟨4, 1⟩]⟩ }

/-- Player 0 owns box `(0,0)` but has score `0`; the only line is the top
side of that box.  Tapping dot `(0,0)` sabotages it away. -/
def gsZeroScoreOwner : GameState :=
  { gridSize := 6, playerCount := 2
    playersArray := [⟨0, 0⟩, ⟨0, 0⟩]
    currentPlayerIndex := 0, status := GStatus.active
    lines := [(⟨0, 0, Dir.h⟩, 0)]
    boxes := [(⟨0, 0⟩, ⟨0, BoxType.normal⟩)]
    specialSquares := ⟨[], []⟩ }

/-- An active 2-player state where it is player 0's turn and player 1
holds one banked turn. -/
def gsOpponentBanked : GameState :=
  { gridSize := 6, playerCount := 2
    playersArray := [⟨0, 0⟩, ⟨0, 1⟩]
    currentPlayerIndex := 0, status := GStatus.active
    lines := [], boxes := [], specialSquares := ⟨[], []⟩ }

/-! ### C1: golden + penalty completed simultaneously -/

/-- The four dots at the corners of a `gridSize × gridSize` dot grid. -/
def cornerDots (gridSize : Nat) : List RC :=
  [⟨0, 0⟩, ⟨0, gridSize - 1⟩, ⟨gridSize - 1, 0⟩, ⟨gridSize - 1, gridSize - 1⟩]

/-- The four dots of box `(row, col)`. -/
def boxDots (b : RC) : List RC :=
  [⟨b.row, b.col⟩, ⟨b.row, b.col + 1⟩, ⟨b.row + 1, b.col⟩, ⟨b.row + 1, b.col + 1⟩]

/-- A box is adjacent to a grid corner when one of its dots is a corner dot. -/
def touchesGridCorner (gridSize : Nat) (b : RC) : Bool :=
  (boxDots b).any fun d => decide (d ∈ cornerDots gridSize)

/-- Two boxes are adjacent when they share an edge. -/
def boxesAdjacent (a b : RC) : Bool :=
  decide ((a.row = b.row ∧ (a.col + 1 = b.col ∨ b.col + 1 = a.col)) ∨
          (a.col = b.col ∧ (a.row + 1 = b.row ∨ b.row + 1 = a.row)))

/-- An update entry touching only a line, a box, or a player score. -/
def isSabotageFrame (e : GPath × GVal) : Bool :=
  match e.1 with
  | GPath.boxP _ => true
  | GPath.playerScoreP _ => true
  | GPath.lineP _ => true
  | _ => false

/-- An association list with pairwise-distinct keys (a JS object). -/
def NodupKeys {α β : Type} (l : List (α × β)) : Prop :=
  (l.map Prod.fst).Nodup

/-- Line `lk` has the dot `d` as one of its two endpoints. -/
def lineTouchesDot : LineKey → RC → Bool
  | ⟨r, c, Dir.h⟩, d => decide ((r = d.row ∧ c = d.col) ∨ (r = d.row ∧ c + 1 = d.col))
  | ⟨r, c, Dir.v⟩, d => decide ((r = d.row ∧ c = d.col) ∨ (r + 1 = d.row ∧ c = d.col))

/-- Line `lk` is one of the four border lines of box `b`. -/
def lineBordersBox : LineKey → RC → Bool
  | ⟨r, c, Dir.h⟩, b => decide ((b.row = r ∧ b.col = c) ∨ (b.row + 1 = r ∧ b.col = c))
  | ⟨r, c, Dir.v⟩, b => decide ((b.row = r ∧ b.col = c) ∨ (b.col + 1 = c ∧ b.row = r))

/-- A line key that denotes an actual line of a `g × g` dot grid. -/
def lineKeyValid (g : Nat) : LineKey → Bool
  | ⟨r, c, Dir.h⟩ => decide (r < g ∧ c + 1 < g)
  | ⟨r, c, Dir.v⟩ => decide (r + 1 < g ∧ c < g)

/-- A box key on a `boxCount × boxCount` board. -/
def boxKeyValid (boxCount : Nat) (b : RC) : Bool :=
  decide (b.row < boxCount ∧ b.col < boxCount)

/-- All line keys of the document denote lines of the grid. -/
def WFLines (gs : GameState) : Prop :=
  ∀ p ∈ gs.lines, lineKeyValid (gridSizeOr6 gs) p.1 = true

/-- All box keys of the document denote boxes of the grid. -/
def WFBoxes (gs : GameState) : Prop :=
  ∀ p ∈ gs.boxes, boxKeyValid (gridSizeOr6 gs - 1) p.1 = true

/-- The owner of the completed box at `k`, if completed. -/
def ownerAt (gs : GameState) (k : RC) : Option Nat :=
  (alookup k gs.boxes).map BoxVal.ownerId

/-- Boxes player `i` loses to the sabotage rollback at `dot`. -/
def sabLostCount (gs : GameState) (dot : RC) (i : Nat) : Nat :=
  (sabotageRemovals gs dot).countP fun k => decide (ownerAt gs k = some i)

/-- The step function of the `pointDeductions` fold. -/
def dedStep (gs : GameState) (ded : List (Nat × Nat)) (k : RC) : List (Nat × Nat) :=
  match alookup k gs.boxes with
  | some b => bump ded b.ownerId
  | none => ded

/-- C9's separation invariant: a coordinate is in at most one of
`specialSquares.golden`, `specialSquares.penalty`, and the completed-box
map, and golden and penalty are disjoint from each other. -/
def DisjointSpecials (gs : GameState) : Prop :=
  (∀ k ∈ gs.specialSquares.golden, k ∉ gs.specialSquares.penalty) ∧
  (∀ k ∈ gs.specialSquares.golden, alookup k gs.boxes = none) ∧
  (∀ k ∈ gs.specialSquares.penalty, alookup k gs.boxes = none)

/-- JS `playersArray[i]?.score || 0` at the list level. -/
def scoreOfL (pl : List Player) (i : Nat) : Int :=
  ((pl[i]?).map Player.score).getD 0

/-- The inductive invariant: player slots match `playerCount`, the current
player index is valid, the box map has no duplicate keys, every box owner
is a valid player, and each player's score is the number of boxes they
own. -/
def Inv (gs : GameState) : Prop :=
  gs.playersArray.length = gs.playerCount ∧
  0 < gs.playerCount ∧
  gs.currentPlayerIndex < gs.playerCount ∧
  NodupKeys gs.boxes ∧
  (∀ p ∈ gs.boxes, p.2.ownerId < gs.playerCount) ∧
  (∀ j, j < gs.playerCount → scoreOfL gs.playersArray j = (ownedCount gs j : Int))

lemma foldl_loopStep_boxUpdates (gs : GameState) (i : Nat)
    (cbs : List (RC × BoxType)) (acc : LoopAcc) :
    (cbs.foldl (loopStep gs i) acc).boxUpdates =
      acc.boxUpdates ++ cbs.map fun b => (b.1, (⟨i, b.2⟩ : BoxVal)) := by
  induction cbs generalizing acc with
  | nil => simp
  | cons b t ih =>
    cases hb : b.2 <;> simp [loopStep, hb, ih, List.append_assoc]

lemma foldl_loopStep_pointsEarned (gs : GameState) (i : Nat)
    (cbs : List (RC × BoxType)) (acc : LoopAcc) :
    (cbs.foldl (loopStep gs i) acc).pointsEarned =
      acc.pointsEarned + cbs.length := by
  induction cbs generalizing acc with
  | nil => simp
  | cons b t ih =>
    cases hb : b.2 <;> simp [loopStep, hb, ih] <;> omega

lemma foldl_loopStep_forfeit (gs : GameState) (i : Nat)
    (cbs : List (RC × BoxType)) (acc : LoopAcc) :
    (cbs.foldl (loopStep gs i) acc).forfeitTurn =
      (acc.forfeitTurn || cbs.any fun b => decide (b.2 = BoxType.penalty)) := by
  induction cbs generalizing acc with
  | nil => simp
  | cons b t ih =>
    cases hb : b.2 <;> simp [loopStep, hb, ih]

lemma foldl_loopStep_golden (gs : GameState) (i : Nat)
    (cbs : List (RC × BoxType)) (acc : LoopAcc) :
    (cbs.foldl (loopStep gs i) acc).goldenToRespawn =
      acc.goldenToRespawn ++
        (cbs.filter fun b => decide (b.2 = BoxType.golden)).map Prod.fst := by
  induction cbs generalizing acc with
  | nil => simp
  | cons b t ih =>
    cases hb : b.2 <;> simp [loopStep, hb, ih, List.append_assoc]

lemma foldl_loopStep_penalty (gs : GameState) (i : Nat)
    (cbs : List (RC × BoxType)) (acc : LoopAcc) :
    (cbs.foldl (loopStep gs i) acc).penaltyToRespawn =
      acc.penaltyToRespawn ++
        (cbs.filter fun b => decide (b.2 = BoxType.penalty)).map Prod.fst := by
  induction cbs generalizing acc with
  | nil => simp
  | cons b t ih =>
    cases hb : b.2 <;> simp [loopStep, hb, ih, List.append_assoc]

lemma foldl_loopStep_banked (gs : GameState) (i : Nat)
    (cbs : List (RC × BoxType)) (acc : LoopAcc) :
    (cbs.foldl (loopStep gs i) acc).bankedTurnsUpdate =
      if cbs.any (fun b => decide (b.2 = BoxType.golden)) then
        some (bankedOf gs i + 1)
      else acc.bankedTurnsUpdate := by
  induction cbs generalizing acc with
  | nil => simp
  | cons b t ih =>
    cases hb : b.2 with
    | golden => simp [loopStep, hb, ih]
    | penalty =>
      by_cases ht : (t.any fun b => decide (b.2 = BoxType.golden)) <;>
        simp [loopStep, hb, ih, ht]
    | normal =>
      by_cases ht : (t.any fun b => decide (b.2 = BoxType.golden)) <;>
        simp [loopStep, hb, ih, ht]

/-! ### `processMove`, field by field -/

lemma processMove_lineKey (gs : GameState) (i row col : Nat) (dir : Dir)
    (shuffle : List RC → List RC) :
    (processMove gs i row col dir shuffle).lineKey = getLineKey row col dir := rfl

lemma processMove_lineOwner (gs : GameState) (i row col : Nat) (dir : Dir)
    (shuffle : List RC → List RC) :
    (processMove gs i row col dir shuffle).lineOwner = i := rfl

lemma processMove_playerIdx (gs : GameState) (i row col : Nat) (dir : Dir)
    (shuffle : List RC → List RC) :
    (processMove gs i row col dir shuffle).playerIdx = i := rfl

lemma processMove_boxUpdates (gs : GameState) (i row col : Nat) (dir : Dir)
    (shuffle : List RC → List RC) :
    (processMove gs i row col dir shuffle).boxUpdates =
      (findCompletedBoxes gs i row col dir).map
        fun b => (b.1, (⟨i, b.2⟩ : BoxVal)) := by
  simp [processMove, foldl_loopStep_boxUpdates, initLoopAcc]

lemma processMove_scoreUpdate (gs : GameState) (i row col : Nat) (dir : Dir)
    (shuffle : List RC → List RC) :
    (processMove gs i row col dir shuffle).scoreUpdate =
      if (findCompletedBoxes gs i row col dir).isEmpty then none
      else some (scoreOf gs i + ((findCompletedBoxes gs i row col dir).length : Int)) := by
  simp only [processMove, foldl_loopStep_pointsEarned, initLoopAcc]
  cases h : findCompletedBoxes gs i row col dir <;> simp [h]

lemma processMove_statusUpdate (gs : GameState) (i row col : Nat) (dir : Dir)
    (shuffle : List RC → List RC) :
    (processMove gs i row col dir shuffle).statusUpdate =
      if (gs.gridSize - 1) * (gs.gridSize - 1) ≤
          gs.boxes.length + (findCompletedBoxes gs i row col dir).length
      then some GStatus.finished else none := rfl

lemma processMove_bankedUpdate (gs : GameState) (i row col : Nat) (dir : Dir)
    (shuffle : List RC → List RC) :
    (processMove gs i row col dir shuffle).bankedTurnsUpdate =
      if (findCompletedBoxes gs i row col dir).isEmpty then
        (if 0 < bankedOf gs i then some (bankedOf gs i - 1) else none)
      else if (findCompletedBoxes gs i row col dir).any
          (fun b => decide (b.2 = BoxType.golden)) then
        some (bankedOf gs i + 1)
      else none := by
  simp only [processMove, foldl_loopStep_banked, foldl_loopStep_forfeit, initLoopAcc]
  cases h : findCompletedBoxes gs i row col dir with
  | nil => by_cases hb : 0 < bankedOf gs i <;> simp [hb]
  | cons b t =>
    by_cases hG : ((b :: t).any fun b => decide (b.2 = BoxType.golden)) <;>
      by_cases hP : ((b :: t).any fun b => decide (b.2 = BoxType.penalty)) <;>
        simp [hG, hP]

lemma processMove_cpiUpdate (gs : GameState) (i row col : Nat) (dir : Dir)
    (shuffle : List RC → List RC) :
    (processMove gs i row col dir shuffle).currentPlayerIndexUpdate =
      if (findCompletedBoxes gs i row col dir).any
          (fun b => decide (b.2 = BoxType.penalty)) then
        some ((gs.currentPlayerIndex + 1) % gs.playerCount)
      else if !(findCompletedBoxes gs i row col dir).isEmpty then none
      else if 0 < bankedOf gs i then none
      else some ((gs.currentPlayerIndex + 1) % gs.playerCount) := by
  simp only [processMove, foldl_loopStep_banked, foldl_loopStep_forfeit, initLoopAcc]
  cases h : findCompletedBoxes gs i row col dir with
  | nil => by_cases hb : 0 < bankedOf gs i <;> simp [hb]
  | cons b t =>
    by_cases hG : ((b :: t).any fun b => decide (b.2 = BoxType.golden)) <;>
      by_cases hP : ((b :: t).any fun b => decide (b.2 = BoxType.penalty)) <;>
        simp [hG, hP]

/-- Filtering then asking for non-emptiness is the same as `any`. -/
lemma not_isEmpty_filter_map (l : List (RC × BoxType)) (p : RC × BoxType → Bool) :
    (!((l.filter p).map Prod.fst).isEmpty) = l.any p := by
  induction l with
  | nil => rfl
  | cons b t ih => by_cases hb : p b <;> simp [hb, ih]

lemma processMove_specialUpdate (gs : GameState) (i row col : Nat) (dir : Dir)
    (shuffle : List RC → List RC) :
    (processMove gs i row col dir shuffle).specialSquaresUpdate =
      if ((findCompletedBoxes gs i row col dir).any
            (fun b => decide (b.2 = BoxType.golden)) ||
          (findCompletedBoxes gs i row col dir).any
            (fun b => decide (b.2 = BoxType.penalty))) then
        some (respawnSpecialSquares gs
          (((findCompletedBoxes gs i row col dir).filter
              fun b => decide (b.2 = BoxType.golden)).map Prod.fst)
          (((findCompletedBoxes gs i row col dir).filter
              fun b => decide (b.2 = BoxType.penalty)).map Prod.fst)
          ((findCompletedBoxes gs i row col dir).map Prod.fst) shuffle)
      else none := by
  simp only [processMove, foldl_loopStep_golden, foldl_loopStep_penalty, initLoopAcc,
    List.nil_append, not_isEmpty_filter_map]

/-! ### Handler inversion -/

lemma handle_eq_some (gs : GameState) (i : Nat) (sab : SabotageState)
    (row col : Nat) (dir : Dir) (shuffle : List RC → List RC) (u : MoveUpdates)
    (h : handleLineDrawAttempt gs i sab row col dir shuffle = some u) :
    isMyTurn gs i = true ∧ lineExists gs row col dir = false ∧
      u = processMove gs i row col dir shuffle := by
  unfold handleLineDrawAttempt at h
  by_cases h1 : isMyTurn gs i
  · by_cases h2 : lineExists gs row col dir
    · simp [h1, h2] at h
    · by_cases h3 : isLineProhibited sab row col dir
      · simp [h1, h2, h3] at h
      · by_cases h4 : (sab.anchoredDot.isSome && !lineUsesAnchoredDot sab row col dir)
        · simp [h1, h2, h3, h4] at h
        · refine ⟨h1, Bool.eq_false_iff.mpr h2, ?_⟩
          simp [h1, Bool.eq_false_iff.mpr h2, Bool.eq_false_iff.mpr h3,
            Bool.eq_false_iff.mpr h4] at h
          exact h.symm
  · simp [h1] at h

/-! ### Concrete states used as witnesses and counterexamples -/

/-- C1.  For every move by the current player that simultaneously completes
a golden box and a penalty box, the published update increases the mover's
`bankedTurns` by 1, advances `currentPlayerIndex` to
`(currentPlayerIndex+1) mod playerCount`, and increases the mover's score
by exactly the number of boxes the move completed. -/
theorem golden_and_penalty_banks_one_and_advances
    (gs : GameState) (i : Nat) (sab : SabotageState) (row col : Nat) (dir : Dir)
    (shuffle : List RC → List RC) (u : MoveUpdates)
    (h : handleLineDrawAttempt gs i sab row col dir shuffle = some u)
    (hg : ∃ b ∈ findCompletedBoxes gs i row col dir, b.2 = BoxType.golden)
    (hp : ∃ b ∈ findCompletedBoxes gs i row col dir, b.2 = BoxType.penalty) :
    u.bankedTurnsUpdate = some (bankedOf gs i + 1) ∧
    u.currentPlayerIndexUpdate = some ((gs.currentPlayerIndex + 1) % gs.playerCount) ∧
    u.scoreUpdate =
      some (scoreOf gs i + ((findCompletedBoxes gs i row col dir).length : Int)) := by
  obtain ⟨-, -, hu⟩ := handle_eq_some gs i sab row col dir shuffle u h
  subst hu
  obtain ⟨bg, hbg, hbg2⟩ := hg
  obtain ⟨bp, hbp, hbp2⟩ := hp
  have hanyG : ((findCompletedBoxes gs i row col dir).any
      fun b => decide (b.2 = BoxType.golden)) = true :=
    List.any_eq_true.mpr ⟨bg, hbg, by simp [hbg2]⟩
  have hanyP : ((findCompletedBoxes gs i row col dir).any
      fun b => decide (b.2 = BoxType.penalty)) = true :=
    List.any_eq_true.mpr ⟨bp, hbp, by simp [hbp2]⟩
  have hne : (findCompletedBoxes gs i row col dir).isEmpty = false := by
    cases hc : findCompletedBoxes gs i row col dir with
    | nil => rw [hc] at hbg; cases hbg
    | cons x t => simp
  refine ⟨?_, ?_, ?_⟩
  · rw [processMove_bankedUpdate, hne, if_neg (by simp), hanyG, if_pos rfl]
  · rw [processMove_cpiUpdate, hanyP, if_pos rfl]
  · rw [processMove_scoreUpdate, hne, if_neg (by simp)]

/-- Witness for C1 at a concrete state: the line `(2,3,v)` completes
golden box `(2,2)` and penalty box `(2,3)` at once. -/
theorem golden_and_penalty_banks_one_and_advances_witness :
    (processMove gsOneGoldenOnePenalty 0 2 3 Dir.v id).bankedTurnsUpdate = some 1 ∧
    (processMove gsOneGoldenOnePenalty 0 2 3 Dir.v id).currentPlayerIndexUpdate = some 1 ∧
    (processMove gsOneGoldenOnePenalty 0 2 3 Dir.v id).scoreUpdate = some 5 := by
  have h := golden_and_penalty_banks_one_and_advances gsOneGoldenOnePenalty 0 sabNone
    2 3 Dir.v id (processMove gsOneGoldenOnePenalty 0 2 3 Dir.v id) rfl
    (by decide) (by decide)
  revert h
  decide

/-! ### C3: two golden boxes in one move bank only one turn (code bug) -/

/-- C3.  The claim says a single line completing two golden boxes banks two
turns (`bankedTurns` increases by the number `k` of golden boxes).  The code
reads `bankedTurns` from the pre-move state inside the completed-box loop,
so the second golden box overwrites the staged update with the same value:
with `bankedTurns = 0` and two golden boxes completed, the published update
sets `bankedTurns` to `1`, not `2`. -/
theorem two_golden_boxes_bank_only_one_turn :
    handleLineDrawAttempt gsTwoGolden 0 sabNone 2 3 Dir.v id
      = some (processMove gsTwoGolden 0 2 3 Dir.v id) ∧
    ((findCompletedBoxes gsTwoGolden 0 2 3 Dir.v).filter
        fun b => decide (b.2 = BoxType.golden)).length = 2 ∧
    bankedOf gsTwoGolden 0 = 0 ∧
    (processMove gsTwoGolden 0 2 3 Dir.v id).bankedTurnsUpdate = some 1 ∧
    some 1 ≠ some (bankedOf gsTwoGolden 0 + 2) := by
  decide

/-! ### C5: failed preconditions publish nothing -/

/-- C5.  If the caller is not the current player, or the line already
exists, or the line touches the prohibited dot, or an anchored dot is set
and the line does not touch it, the handler returns `false` and publishes
no update (`none`: zero mutations of the shared document). -/
theorem failed_precondition_publishes_nothing
    (gs : GameState) (i : Nat) (sab : SabotageState) (row col : Nat) (dir : Dir)
    (shuffle : List RC → List RC)
    (h : gs.currentPlayerIndex ≠ i ∨ lineExists gs row col dir = true ∨
      isLineProhibited sab row col dir = true ∨
      (sab.anchoredDot.isSome = true ∧ lineUsesAnchoredDot sab row col dir = false)) :
    handleLineDrawAttempt gs i sab row col dir shuffle = none := by
  unfold handleLineDrawAttempt
  rcases h with h | h | h | ⟨h, h'⟩
  · have hmt : isMyTurn gs i = false := by
      unfold isMyTurn
      simp [h]
    simp [hmt]
  · by_cases h1 : isMyTurn gs i <;> simp [h1, h]
  · by_cases h1 : isMyTurn gs i <;>
      by_cases h2 : lineExists gs row col dir <;> simp [h1, h2, h]
  · by_cases h1 : isMyTurn gs i <;>
      by_cases h2 : lineExists gs row col dir <;>
        by_cases h3 : isLineProhibited sab row col dir <;>
          simp [h1, h2, h3, h, h']

/-- Witness for C5: an out-of-turn move at a concrete state is dropped. -/
theorem failed_precondition_publishes_nothing_witness :
    handleLineDrawAttempt gsOpponentBanked 1 sabNone 0 0 Dir.h id = none :=
  failed_precondition_publishes_nothing gsOpponentBanked 1 sabNone 0 0 Dir.h id
    (Or.inl (by decide))

/-! ### C6: a non-completing move consumes a banked turn or passes -/

/-- C6.  For every accepted move completing zero boxes: if the mover's
`bankedTurns` is positive the published update sets it to `bankedTurns - 1`
and contains no `currentPlayerIndex` change; otherwise it advances
`currentPlayerIndex` to `(currentPlayerIndex+1) mod playerCount`. -/
theorem non_completing_move_consumes_banked_or_passes
    (gs : GameState) (i : Nat) (sab : SabotageState) (row col : Nat) (dir : Dir)
    (shuffle : List RC → List RC) (u : MoveUpdates)
    (h : handleLineDrawAttempt gs i sab row col dir shuffle = some u)
    (he : findCompletedBoxes gs i row col dir = []) :
    u.bankedTurnsUpdate =
      (if 0 < bankedOf gs i then some (bankedOf gs i - 1) else none) ∧
    u.currentPlayerIndexUpdate =
      (if 0 < bankedOf gs i then none
       else some ((gs.currentPlayerIndex + 1) % gs.playerCount)) := by
  obtain ⟨-, -, hu⟩ := handle_eq_some gs i sab row col dir shuffle u h
  subst hu
  constructor
  · rw [processMove_bankedUpdate, he]
    simp
  · rw [processMove_cpiUpdate, he]
    by_cases hb : 0 < bankedOf gs i <;> simp [hb]

/-- Witness for C6: with 2 banked turns, a plain move decrements to 1 and
keeps the turn. -/
theorem non_completing_move_consumes_banked_or_passes_witness :
    (processMove gsBanked 0 0 0 Dir.h id).bankedTurnsUpdate =
      (if 0 < bankedOf gsBanked 0 then some (bankedOf gsBanked 0 - 1) else none) ∧
    (processMove gsBanked 0 0 0 Dir.h id).currentPlayerIndexUpdate =
      (if 0 < bankedOf gsBanked 0 then none
       else some ((gsBanked.currentPlayerIndex + 1) % gsBanked.playerCount)) :=
  non_completing_move_consumes_banked_or_passes gsBanked 0 sabNone 0 0 Dir.h id
    (processMove gsBanked 0 0 0 Dir.h id) rfl (by decide)

/-! ### C8: initial special-square placement constraints (code bug) -/

/-- C8.  The claim says the initial placement never puts a golden or
penalty square adjacent to a grid corner, and never a penalty square
adjacent to a golden square.  `generateSpecialSquares` merely shuffles all
25 box positions and takes the first few, with no constraint: under the
identity shuffle outcome (every Fisher-Yates draw leaving the array in
place) with 1 golden and 1 penalty square, the golden square lands on the
corner box `(0,0)` and the penalty square lands on `(0,1)`, adjacent to it. -/
theorem initial_placement_violates_corner_and_adjacency :
    (generateSpecialSquares 6 id 1 1).golden = [⟨0, 0⟩] ∧
    (generateSpecialSquares 6 id 1 1).penalty = [⟨0, 1⟩] ∧
    touchesGridCorner 6 ⟨0, 0⟩ = true ∧
    boxesAdjacent ⟨0, 0⟩ ⟨0, 1⟩ = true := by
  decide

/-! ### C7: what can change `currentPlayerIndex` (corrected) -/

/-- C7 counterexample.  The claim says no operation of the game module
other than the move handler's turn-advancement decision publishes an update
changing `currentPlayerIndex`.  But `useBankedTurn` is such an operation:
at `gsOpponentBanked` (current player 0), player 1 calling it publishes
`currentPlayerIndex = 1`. -/
theorem useBankedTurn_changes_current_player :
    useBankedTurn gsOpponentBanked 1 =
      some ⟨1, 0, 1⟩ ∧
    gsOpponentBanked.currentPlayerIndex = 0 ∧
    (⟨1, 0, 1⟩ : BankedTurnUpdates).currentPlayerIndexUpdate ≠
      gsOpponentBanked.currentPlayerIndex := by
  decide

/-- Every update entry produced by the sabotage rollback is a box removal,
a player-score write, or a line removal. -/
lemma sabotage_update_paths (gs : GameState) (dot : RC) :
    ∀ e ∈ calculateSabotageEffect gs dot,
      (∃ k, e = (GPath.boxP k, GVal.nullV)) ∨
      (∃ i v, e = (GPath.playerScoreP i, GVal.intV v)) ∨
      (∃ k, e = (GPath.lineP k, GVal.nullV)) := by
  intro e he
  unfold calculateSabotageEffect at he
  simp only [List.mem_append, List.mem_map] at he
  rcases he with (⟨k, -, rfl⟩ | ⟨p, -, rfl⟩) | ⟨l, -, rfl⟩
  · exact Or.inl ⟨k, rfl⟩
  · exact Or.inr (Or.inl ⟨p.1, _, rfl⟩)
  · exact Or.inr (Or.inr ⟨l.1, rfl⟩)

/-- C7 amended.  `currentPlayerIndex` is changed only by the move handler's
turn-advancement rule — which always publishes either nothing or
`(currentPlayerIndex + 1) mod playerCount` — or by `useBankedTurn`, which
sets it to the calling player's own index; the sabotage rollback never
touches it. -/
theorem current_player_changes_only_by_turn_rule_or_useBankedTurn :
    (∀ (gs : GameState) (dot : RC), ∀ e ∈ calculateSabotageEffect gs dot,
      e.1 ≠ GPath.currentPlayerIndexP) ∧
    (∀ (gs : GameState) (i : Nat) (sab : SabotageState) (row col : Nat)
      (dir : Dir) (shuffle : List RC → List RC) (u : MoveUpdates),
      handleLineDrawAttempt gs i sab row col dir shuffle = some u →
      u.currentPlayerIndexUpdate = none ∨
      u.currentPlayerIndexUpdate =
        some ((gs.currentPlayerIndex + 1) % gs.playerCount)) ∧
    (∀ (gs : GameState) (i : Nat) (bu : BankedTurnUpdates),
      useBankedTurn gs i = some bu → bu.currentPlayerIndexUpdate = i) := by
  refine ⟨?_, ?_, ?_⟩
  · intro gs dot e he
    rcases sabotage_update_paths gs dot e he with ⟨k, rfl⟩ | ⟨i, v, rfl⟩ | ⟨k, rfl⟩ <;>
      simp
  · intro gs i sab row col dir shuffle u h
    obtain ⟨-, -, hu⟩ := handle_eq_some gs i sab row col dir shuffle u h
    subst hu
    rw [processMove_cpiUpdate]
    split
    · exact Or.inr rfl
    · split
      · exact Or.inl rfl
      · split
        · exact Or.inl rfl
        · exact Or.inr rfl
  · intro gs i bu h
    unfold useBankedTurn at h
    by_cases h1 : decide (gs.status = GStatus.active) <;> simp [h1] at h
    cases hp : gs.playersArray[i]? with
    | none => rw [hp] at h; cases h
    | some player =>
      rw [hp] at h
      by_cases h2 : player.bankedTurns ≤ 0 <;> simp [h2] at h
      rw [← h]

/-- Witness for C7 amended, applying all three parts at concrete inputs. -/
theorem current_player_changes_witness :
    (GPath.boxP ⟨0, 0⟩, GVal.nullV).1 ≠ GPath.currentPlayerIndexP ∧
    ((processMove gsBanked 0 0 0 Dir.h id).currentPlayerIndexUpdate = none ∨
      (processMove gsBanked 0 0 0 Dir.h id).currentPlayerIndexUpdate =
        some ((gsBanked.currentPlayerIndex + 1) % gsBanked.playerCount)) ∧
    (⟨1, 0, 1⟩ : BankedTurnUpdates).currentPlayerIndexUpdate = 1 :=
  ⟨current_player_changes_only_by_turn_rule_or_useBankedTurn.1 gsZeroScoreOwner
      ⟨0, 0⟩ (GPath.boxP ⟨0, 0⟩, GVal.nullV) (by decide),
   current_player_changes_only_by_turn_rule_or_useBankedTurn.2.1 gsBanked 0 sabNone
      0 0 Dir.h id (processMove gsBanked 0 0 0 Dir.h id) rfl,
   current_player_changes_only_by_turn_rule_or_useBankedTurn.2.2 gsOpponentBanked 1
      ⟨1, 0, 1⟩ (by decide)⟩

/-! ### C10: frame property of the sabotage rollback -/

lemma setPlayerScore_map_banked (pl : List Player) (i : Nat) (v : Int) :
    (setPlayerScore pl i v).map Player.bankedTurns = pl.map Player.bankedTurns := by
  induction pl generalizing i with
  | nil => rfl
  | cons p t ih =>
    cases i with
    | zero => rfl
    | succ j => simp [setPlayerScore, ih]

lemma foldl_applyGUpdate_frame (us : List (GPath × GVal)) (gs : GameState)
    (h : ∀ e ∈ us,
      (∃ k, e = (GPath.boxP k, GVal.nullV)) ∨
      (∃ i v, e = (GPath.playerScoreP i, GVal.intV v)) ∨
      (∃ k, e = (GPath.lineP k, GVal.nullV))) :
    (us.foldl applyGUpdate gs).specialSquares = gs.specialSquares ∧
    (us.foldl applyGUpdate gs).currentPlayerIndex = gs.currentPlayerIndex ∧
    (us.foldl applyGUpdate gs).status = gs.status ∧
    (us.foldl applyGUpdate gs).playersArray.map Player.bankedTurns =
      gs.playersArray.map Player.bankedTurns := by
  induction us generalizing gs with
  | nil => exact ⟨rfl, rfl, rfl, rfl⟩
  | cons e t ih =>
    have he := h e (List.mem_cons_self e t)
    have ht : ∀ e' ∈ t, _ := fun e' he' => h e' (List.mem_cons_of_mem e he')
    obtain ⟨s1, s2, s3, s4⟩ := ih (applyGUpdate gs e) ht
    rcases he with ⟨k, rfl⟩ | ⟨i, v, rfl⟩ | ⟨k, rfl⟩ <;>
      refine ⟨by rwa [List.foldl_cons], by rwa [List.foldl_cons],
        by rwa [List.foldl_cons], ?_⟩ <;>
      rw [List.foldl_cons] at * <;>
      simp only [applyGUpdate] at s4 ⊢ <;>
      rw [s4]
    exact setPlayerScore_map_banked gs.playersArray i v

/-- C10.  The sabotage rollback's update set contains only line entries,
box entries, and player score fields; applying it leaves `specialSquares`,
`currentPlayerIndex`, `status`, and every player's `bankedTurns` unchanged.
In particular a consumed golden or penalty square whose box is un-completed
by sabotage does not regain special status: the `specialSquares` lists are
exactly what they were before the rollback. -/
theorem sabotage_updates_touch_only_lines_boxes_scores
    (gs : GameState) (dot : RC) :
    ((calculateSabotageEffect gs dot).all isSabotageFrame) = true ∧
    (applySabotage gs dot).specialSquares = gs.specialSquares ∧
    (applySabotage gs dot).currentPlayerIndex = gs.currentPlayerIndex ∧
    (applySabotage gs dot).status = gs.status ∧
    (applySabotage gs dot).playersArray.map Player.bankedTurns =
      gs.playersArray.map Player.bankedTurns := by
  have hframe := foldl_applyGUpdate_frame (calculateSabotageEffect gs dot) gs
    (sabotage_update_paths gs dot)
  refine ⟨?_, hframe.1, hframe.2.1, hframe.2.2.1, hframe.2.2.2⟩
  rw [List.all_eq_true]
  intro e he
  rcases sabotage_update_paths gs dot e he with ⟨k, rfl⟩ | ⟨i, v, rfl⟩ | ⟨k, rfl⟩ <;>
    rfl

/-! ### Association-list lemmas -/

lemma alookup_mem {α β : Type} [DecidableEq α] {k : α} {v : β}
    {l : List (α × β)} (h : alookup k l = some v) : (k, v) ∈ l := by
  induction l with
  | nil => cases h
  | cons p t ih =>
    unfold alookup at h
    by_cases hp : p.1 = k
    · rw [if_pos hp] at h
      injection h with h2
      have hpv : p = (k, v) := by
        cases p
        simp_all
      rw [hpv]
      exact List.mem_cons_self _ _
    · rw [if_neg hp] at h
      exact List.mem_cons_of_mem p (ih h)

lemma alookup_eq_none_iff {α β : Type} [DecidableEq α] {k : α}
    {l : List (α × β)} : alookup k l = none ↔ ∀ p ∈ l, p.1 ≠ k := by
  induction l with
  | nil => simp [alookup]
  | cons p t ih =>
    unfold alookup
    by_cases hp : p.1 = k <;> simp [hp, ih]

lemma isSome_alookup_of_mem {α β : Type} [DecidableEq α] {k : α} {v : β}
    {l : List (α × β)} (h : (k, v) ∈ l) : (alookup k l).isSome = true := by
  induction l with
  | nil => cases h
  | cons p t ih =>
    rcases List.mem_cons.mp h with h | h
    · unfold alookup
      rw [← h]
      simp
    · unfold alookup
      by_cases hp : p.1 = k <;> simp [hp, ih h]

lemma alookup_isSome_iff {α β : Type} [DecidableEq α] {k : α}
    {l : List (α × β)} : (alookup k l).isSome = true ↔ ∃ v, (k, v) ∈ l := by
  constructor
  · intro h
    obtain ⟨v, hv⟩ := Option.isSome_iff_exists.mp h
    exact ⟨v, alookup_mem hv⟩
  · rintro ⟨v, hv⟩
    exact isSome_alookup_of_mem hv

lemma alookup_of_mem_nodup {α β : Type} [DecidableEq α] {k : α} {v : β}
    {l : List (α × β)} (hnd : NodupKeys l) (h : (k, v) ∈ l) :
    alookup k l = some v := by
  induction l with
  | nil => cases h
  | cons p t ih =>
    unfold NodupKeys at hnd
    simp only [List.map_cons, List.nodup_cons] at hnd
    rcases List.mem_cons.mp h with h | h
    · rw [← h]
      simp [alookup]
    · have hp : p.1 ≠ k := by
        intro hk
        exact hnd.1 (hk ▸ List.mem_map_of_mem Prod.fst h)
      simp only [alookup, if_neg hp]
      exact ih hnd.2 h

lemma mem_foldl_addUnique (l : List RC) (acc : List RC) (x : RC) :
    x ∈ l.foldl addUnique acc ↔ x ∈ acc ∨ x ∈ l := by
  induction l generalizing acc with
  | nil => simp
  | cons k t ih =>
    rw [List.foldl_cons, ih]
    unfold addUnique
    by_cases hk : k ∈ acc
    · simp only [if_pos hk]
      constructor
      · rintro (h | h)
        · exact Or.inl h
        · exact Or.inr (List.mem_cons_of_mem k h)
      · rintro (h | h)
        · exact Or.inl h
        · rcases List.mem_cons.mp h with rfl | h
          · exact Or.inl hk
          · exact Or.inr h
    · simp only [if_neg hk, List.mem_append, List.mem_singleton, List.mem_cons]
      tauto

lemma nodup_foldl_addUnique (l : List RC) (acc : List RC) (h : acc.Nodup) :
    (l.foldl addUnique acc).Nodup := by
  induction l generalizing acc with
  | nil => exact h
  | cons k t ih =>
    rw [List.foldl_cons]
    refine ih _ ?_
    unfold addUnique
    by_cases hk : k ∈ acc
    · rw [if_pos hk]
      exact h
    · rw [if_neg hk]
      refine List.Nodup.append h (List.nodup_singleton k) ?_
      intro a ha hb
      rw [List.mem_singleton] at hb
      subst hb
      exact hk ha

/-! ### Key-validity and geometric vocabulary for the sabotage claims -/

lemma mem_lineEntry {gs : GameState} {lk k : LineKey} {o : Nat}
    (h : (k, o) ∈ lineEntry gs lk) :
    k = lk ∧ alookup lk gs.lines = some o := by
  unfold lineEntry at h
  cases hl : alookup lk gs.lines with
  | none => rw [hl] at h; cases h
  | some v =>
    rw [hl] at h
    rw [List.mem_singleton] at h
    injection h with h1 h2
    exact ⟨h1, by rw [h2]⟩

lemma lineEntry_mem_self {gs : GameState} {lk : LineKey} {o : Nat}
    (h : alookup lk gs.lines = some o) : (lk, o) ∈ lineEntry gs lk := by
  unfold lineEntry
  rw [h]
  exact List.mem_singleton.mpr rfl

/-- Everything in `connectedLines` is an existing line touching the dot. -/
lemma connectedLines_sound {gs : GameState} {dot : RC} {k : LineKey} {o : Nat}
    (h : (k, o) ∈ connectedLines gs dot) :
    alookup k gs.lines = some o ∧ lineTouchesDot k dot = true := by
  unfold connectedLines at h
  simp only [List.mem_append] at h
  rcases h with ((h | h) | h) | h
  · split at h
    · obtain ⟨rfl, hl⟩ := mem_lineEntry h
      refine ⟨hl, ?_⟩
      exact decide_eq_true (by omega)
    · cases h
  · split at h
    · obtain ⟨rfl, hl⟩ := mem_lineEntry h
      refine ⟨hl, ?_⟩
      exact decide_eq_true (by omega)
    · cases h
  · split at h
    · obtain ⟨rfl, hl⟩ := mem_lineEntry h
      refine ⟨hl, ?_⟩
      rename_i hc
      exact decide_eq_true (by omega)
    · cases h
  · split at h
    · obtain ⟨rfl, hl⟩ := mem_lineEntry h
      refine ⟨hl, ?_⟩
      rename_i hc
      exact decide_eq_true (by omega)
    · cases h

/-- Every existing valid line touching the dot is in `connectedLines`. -/
lemma connectedLines_complete {gs : GameState} {dot : RC} {k : LineKey} {o : Nat}
    (hWF : WFLines gs) (hl : alookup k gs.lines = some o)
    (ht : lineTouchesDot k dot = true) :
    (k, o) ∈ connectedLines gs dot := by
  have hv := hWF (k, o) (alookup_mem hl)
  obtain ⟨kr, kc, kd⟩ := k
  unfold connectedLines
  simp only [List.mem_append]
  cases kd with
  | h =>
    simp only [lineKeyValid, decide_eq_true_eq] at hv
    simp only [lineTouchesDot, decide_eq_true_eq] at ht
    rcases ht with ⟨hrow, hcol⟩ | ⟨hrow, hcol⟩
    · refine Or.inl (Or.inl (Or.inl ?_))
      rw [if_pos (by omega)]
      have hk : (⟨dot.row, dot.col, Dir.h⟩ : LineKey) = ⟨kr, kc, Dir.h⟩ := by
        simp only [LineKey.mk.injEq, eq_self_iff_true, and_true]
        omega
      rw [hk]
      exact lineEntry_mem_self hl
    · refine Or.inl (Or.inr ?_)
      rw [if_pos (by omega)]
      have hk : (⟨dot.row, dot.col - 1, Dir.h⟩ : LineKey) = ⟨kr, kc, Dir.h⟩ := by
        simp only [LineKey.mk.injEq, eq_self_iff_true, and_true]
        omega
      rw [hk]
      exact lineEntry_mem_self hl
  | v =>
    simp only [lineKeyValid, decide_eq_true_eq] at hv
    simp only [lineTouchesDot, decide_eq_true_eq] at ht
    rcases ht with ⟨hrow, hcol⟩ | ⟨hrow, hcol⟩
    · refine Or.inl (Or.inl (Or.inr ?_))
      rw [if_pos (by omega)]
      have hk : (⟨dot.row, dot.col, Dir.v⟩ : LineKey) = ⟨kr, kc, Dir.v⟩ := by
        simp only [LineKey.mk.injEq, eq_self_iff_true, and_true]
        omega
      rw [hk]
      exact lineEntry_mem_self hl
    · refine Or.inr ?_
      rw [if_pos (by omega)]
      have hk : (⟨dot.row - 1, dot.col, Dir.v⟩ : LineKey) = ⟨kr, kc, Dir.v⟩ := by
        simp only [LineKey.mk.injEq, eq_self_iff_true, and_true]
        omega
      rw [hk]
      exact lineEntry_mem_self hl

/-- Everything in `sabBoxCandidates` is a completed box bordered by the line. -/
lemma sabBoxCandidates_sound {gs : GameState} {bc : Nat} {lk : LineKey} {k : RC}
    (h : k ∈ sabBoxCandidates gs bc lk) :
    (alookup k gs.boxes).isSome = true ∧ lineBordersBox lk k = true := by
  obtain ⟨lr, lc, ld⟩ := lk
  cases ld <;>
    simp only [sabBoxCandidates, List.mem_append] at h <;>
    rcases h with h | h <;>
    · split at h
      · rw [List.mem_singleton] at h
        subst h
        rename_i hc
        rw [Bool.and_eq_true, decide_eq_true_eq] at hc
        refine ⟨hc.2, ?_⟩
        exact decide_eq_true (by dsimp only; omega)
      · cases h

/-- Every completed in-grid box bordered by the line is in
`sabBoxCandidates`. -/
lemma sabBoxCandidates_complete {gs : GameState} {bc : Nat} {lk : LineKey} {k : RC}
    (hp : (alookup k gs.boxes).isSome = true)
    (hb : lineBordersBox lk k = true)
    (hv : boxKeyValid bc k = true) :
    k ∈ sabBoxCandidates gs bc lk := by
  obtain ⟨lr, lc, ld⟩ := lk
  obtain ⟨kr, kc⟩ := k
  simp only [boxKeyValid, decide_eq_true_eq] at hv
  cases ld <;> simp only [lineBordersBox, decide_eq_true_eq] at hb <;>
    simp only [sabBoxCandidates, List.mem_append] <;>
    rcases hb with ⟨h1, h2⟩ | ⟨h1, h2⟩
  · refine Or.inr ?_
    have e : (⟨lr, lc⟩ : RC) = ⟨kr, kc⟩ := by
      simp only [RC.mk.injEq]
      omega
    have hcond : (decide (lr < bc) && (alookup (⟨lr, lc⟩ : RC) gs.boxes).isSome) = true :=
      by rw [Bool.and_eq_true]; exact ⟨decide_eq_true (by omega), by rw [e]; exact hp⟩
    rw [if_pos hcond, e]
    exact List.mem_singleton.mpr rfl
  · refine Or.inl ?_
    have e : (⟨lr - 1, lc⟩ : RC) = ⟨kr, kc⟩ := by
      simp only [RC.mk.injEq]
      omega
    have hcond : (decide (0 < lr) && (alookup (⟨lr - 1, lc⟩ : RC) gs.boxes).isSome) = true :=
      by rw [Bool.and_eq_true]; exact ⟨decide_eq_true (by omega), by rw [e]; exact hp⟩
    rw [if_pos hcond, e]
    exact List.mem_singleton.mpr rfl
  · refine Or.inr ?_
    have e : (⟨lr, lc⟩ : RC) = ⟨kr, kc⟩ := by
      simp only [RC.mk.injEq]
      omega
    have hcond : (decide (lc < bc) && (alookup (⟨lr, lc⟩ : RC) gs.boxes).isSome) = true :=
      by rw [Bool.and_eq_true]; exact ⟨decide_eq_true (by omega), by rw [e]; exact hp⟩
    rw [if_pos hcond, e]
    exact List.mem_singleton.mpr rfl
  · refine Or.inl ?_
    have e : (⟨lr, lc - 1⟩ : RC) = ⟨kr, kc⟩ := by
      simp only [RC.mk.injEq]
      omega
    have hcond : (decide (0 < lc) && (alookup (⟨lr, lc - 1⟩ : RC) gs.boxes).isSome) = true :=
      by rw [Bool.and_eq_true]; exact ⟨decide_eq_true (by omega), by rw [e]; exact hp⟩
    rw [if_pos hcond, e]
    exact List.mem_singleton.mpr rfl

/-- Membership in the deduplicated `affectedBoxes`. -/
lemma mem_sabAffectedBoxes (gs : GameState) (dot : RC) (k : RC) :
    k ∈ sabAffectedBoxes gs dot ↔
      ∃ l ∈ connectedLines gs dot,
        k ∈ sabBoxCandidates gs (gridSizeOr6 gs - 1) l.1 := by
  unfold sabAffectedBoxes
  rw [mem_foldl_addUnique]
  simp [List.mem_flatMap]

/-! ### The `pointDeductions` tally -/

lemma alookup_append {α β : Type} [DecidableEq α] (k : α) (l1 l2 : List (α × β)) :
    alookup k (l1 ++ l2) = (alookup k l1).or (alookup k l2) := by
  induction l1 with
  | nil => simp [alookup]
  | cons p t ih =>
    by_cases hp : p.1 = k <;> simp [alookup, hp, ih]

lemma alookup_bumpMap (l : List (Nat × Nat)) (o j : Nat) :
    alookup j (l.map fun p => if p.1 = o then (p.1, p.2 + 1) else p) =
      (alookup j l).map fun v => if j = o then v + 1 else v := by
  induction l with
  | nil => rfl
  | cons p t ih =>
    by_cases hpj : p.1 = j <;> by_cases hpo : p.1 = o <;>
      simp [alookup, hpj, hpo, ih] <;> simp_all

lemma bump_lookupD (l : List (Nat × Nat)) (o j : Nat) :
    (alookup j (bump l o)).getD 0 =
      (alookup j l).getD 0 + (if j = o then 1 else 0) := by
  unfold bump
  cases h : alookup o l with
  | some d =>
    rw [alookup_bumpMap]
    by_cases hj : j = o
    · subst hj
      rw [h]
      simp
    · cases hl : alookup j l <;> simp [hj, hl]
  | none =>
    rw [alookup_append]
    by_cases hj : j = o
    · subst hj
      rw [h]
      simp [alookup]
    · have hoj : ¬o = j := fun hh => hj hh.symm
      cases hl : alookup j l <;> simp [alookup, hj, hoj, hl]

lemma bump_nodupKeys (l : List (Nat × Nat)) (o : Nat) (h : NodupKeys l) :
    NodupKeys (bump l o) := by
  unfold bump
  cases ha : alookup o l with
  | some d =>
    unfold NodupKeys at h ⊢
    have : ((l.map fun p => if p.1 = o then (p.1, p.2 + 1) else p).map Prod.fst) =
        l.map Prod.fst := by
      rw [List.map_map]
      refine List.map_congr_left ?_
      intro p _
      by_cases hp : p.1 = o <;> simp [hp]
    rw [this]
    exact h
  | none =>
    unfold NodupKeys at h ⊢
    rw [List.map_append]
    refine List.Nodup.append h (by simp) ?_
    intro a hal har
    simp only [List.map_cons, List.map_nil, List.mem_singleton] at har
    subst har
    obtain ⟨p, hp, hp1⟩ := List.mem_map.mp hal
    exact absurd (hp1 ▸ rfl) (alookup_eq_none_iff.mp ha p hp)

lemma bump_pos (l : List (Nat × Nat)) (o : Nat) (h : ∀ p ∈ l, 0 < p.2) :
    ∀ p ∈ bump l o, 0 < p.2 := by
  unfold bump
  cases ha : alookup o l with
  | some d =>
    intro p hp
    obtain ⟨q, hq, hq1⟩ := List.mem_map.mp hp
    by_cases hqo : q.1 = o
    · rw [if_pos hqo] at hq1
      rw [← hq1]
      simp
    · rw [if_neg hqo] at hq1
      exact hq1 ▸ h q hq
  | none =>
    intro p hp
    rcases List.mem_append.mp hp with hp | hp
    · exact h p hp
    · rw [List.mem_singleton] at hp
      subst hp
      simp

lemma calcDeductions_eq_foldl (gs : GameState) (aff : List RC) :
    calcDeductions gs aff = aff.foldl (dedStep gs) [] := rfl

lemma foldl_dedStep_lookupD (gs : GameState) (aff : List RC)
    (ded0 : List (Nat × Nat)) (j : Nat) :
    (alookup j (aff.foldl (dedStep gs) ded0)).getD 0 =
      (alookup j ded0).getD 0 +
        aff.countP (fun k => decide (ownerAt gs k = some j)) := by
  induction aff generalizing ded0 with
  | nil => simp
  | cons k t ih =>
    rw [List.foldl_cons, ih, List.countP_cons]
    cases hk : alookup k gs.boxes with
    | none =>
      have hown : ownerAt gs k = none := by
        unfold ownerAt
        rw [hk]
        rfl
      have hstep : dedStep gs ded0 k = ded0 := by
        unfold dedStep
        rw [hk]
      rw [hstep, hown]
      simp
    | some b =>
      have hown : ownerAt gs k = some b.ownerId := by
        unfold ownerAt
        rw [hk]
        rfl
      have hstep : dedStep gs ded0 k = bump ded0 b.ownerId := by
        unfold dedStep
        rw [hk]
      rw [hstep, bump_lookupD, hown]
      by_cases hj : j = b.ownerId
      · subst hj
        simp
        omega
      · have hd : (decide (some b.ownerId = some j)) = false := by
          simp only [decide_eq_false_iff_not]
          intro hx
          exact hj (Option.some_inj.mp hx).symm
        rw [hd]
        simp [hj]

lemma foldl_dedStep_nodup (gs : GameState) (aff : List RC)
    (ded0 : List (Nat × Nat)) (h : NodupKeys ded0) :
    NodupKeys (aff.foldl (dedStep gs) ded0) := by
  induction aff generalizing ded0 with
  | nil => exact h
  | cons k t ih =>
    rw [List.foldl_cons]
    refine ih _ ?_
    unfold dedStep
    cases alookup k gs.boxes with
    | none => exact h
    | some b => exact bump_nodupKeys _ _ h

lemma foldl_dedStep_pos (gs : GameState) (aff : List RC)
    (ded0 : List (Nat × Nat)) (h : ∀ p ∈ ded0, 0 < p.2) :
    ∀ p ∈ aff.foldl (dedStep gs) ded0, 0 < p.2 := by
  induction aff generalizing ded0 with
  | nil => exact h
  | cons k t ih =>
    rw [List.foldl_cons]
    refine ih _ ?_
    unfold dedStep
    cases alookup k gs.boxes with
    | none => exact h
    | some b => exact bump_pos _ _ h

lemma calcDeductions_lookupD (gs : GameState) (aff : List RC) (j : Nat) :
    (alookup j (calcDeductions gs aff)).getD 0 =
      aff.countP fun k => decide (ownerAt gs k = some j) := by
  rw [calcDeductions_eq_foldl, foldl_dedStep_lookupD]
  simp [alookup]

lemma calcDeductions_nodup (gs : GameState) (aff : List RC) :
    NodupKeys (calcDeductions gs aff) :=
  foldl_dedStep_nodup gs aff [] (by simp [NodupKeys])

lemma calcDeductions_pos (gs : GameState) (aff : List RC) :
    ∀ p ∈ calcDeductions gs aff, 0 < p.2 :=
  foldl_dedStep_pos gs aff [] (by simp)

/-- Counting lost boxes over `affectedBoxes` or over the removal list is
the same: every affected box counted for an owner is completed, hence kept
by the presence filter. -/
lemma sabLostCount_eq_affected (gs : GameState) (dot : RC) (j : Nat) :
    sabLostCount gs dot j =
      (sabAffectedBoxes gs dot).countP fun k => decide (ownerAt gs k = some j) := by
  unfold sabLostCount sabotageRemovals
  rw [List.countP_filter]
  refine List.countP_congr ?_
  intro k _
  by_cases hk : (alookup k gs.boxes).isSome
  · simp [hk]
  · have : ownerAt gs k = none := by
      unfold ownerAt
      rw [Option.not_isSome_iff_eq_none.mp hk]
      rfl
    simp [this, hk]

/-! ### Shape of the sabotage update set -/

lemma mem_calc_line (gs : GameState) (dot : RC) (lk : LineKey) :
    (GPath.lineP lk, GVal.nullV) ∈ calculateSabotageEffect gs dot ↔
      ∃ o, (lk, o) ∈ connectedLines gs dot := by
  unfold calculateSabotageEffect
  constructor
  · intro h
    rcases List.mem_append.mp h with h | h
    · rcases List.mem_append.mp h with h | h
      · obtain ⟨k, -, he⟩ := List.mem_map.mp h
        simp at he
      · obtain ⟨p, -, he⟩ := List.mem_map.mp h
        simp at he
    · obtain ⟨⟨l1, l2⟩, hl, he⟩ := List.mem_map.mp h
      injection he with he1 he2
      injection he1 with he1
      subst he1
      exact ⟨l2, hl⟩
  · rintro ⟨o, ho⟩
    refine List.mem_append.mpr (Or.inr ?_)
    exact List.mem_map.mpr ⟨(lk, o), ho, rfl⟩

lemma mem_calc_box (gs : GameState) (dot : RC) (bk : RC) :
    (GPath.boxP bk, GVal.nullV) ∈ calculateSabotageEffect gs dot ↔
      bk ∈ sabotageRemovals gs dot := by
  unfold calculateSabotageEffect
  constructor
  · intro h
    rcases List.mem_append.mp h with h | h
    · rcases List.mem_append.mp h with h | h
      · obtain ⟨k, hk, he⟩ := List.mem_map.mp h
        injection he with he1 he2
        injection he1 with he1
        subst he1
        exact hk
      · obtain ⟨p, -, he⟩ := List.mem_map.mp h
        simp at he
    · obtain ⟨l, -, he⟩ := List.mem_map.mp h
      simp at he
  · intro h
    refine List.mem_append.mpr (Or.inl (List.mem_append.mpr (Or.inl ?_)))
    exact List.mem_map.mpr ⟨bk, h, rfl⟩

lemma mem_calc_score (gs : GameState) (dot : RC) (i : Nat) (v : Int) :
    (GPath.playerScoreP i, GVal.intV v) ∈ calculateSabotageEffect gs dot ↔
      ∃ d, (i, d) ∈ calcDeductions gs (sabAffectedBoxes gs dot) ∧
        v = max 0 (scoreOf gs i - (d : Int)) := by
  unfold calculateSabotageEffect
  constructor
  · intro h
    rcases List.mem_append.mp h with h | h
    · rcases List.mem_append.mp h with h | h
      · obtain ⟨k, -, he⟩ := List.mem_map.mp h
        simp at he
      · obtain ⟨⟨p1, p2⟩, hp, he⟩ := List.mem_map.mp h
        injection he with he1 he2
        injection he1 with he1
        injection he2 with he2
        subst he1
        exact ⟨p2, hp, he2.symm⟩
    · obtain ⟨l, -, he⟩ := List.mem_map.mp h
      simp at he
  · rintro ⟨d, hd, rfl⟩
    refine List.mem_append.mpr (Or.inl (List.mem_append.mpr (Or.inr ?_)))
    exact List.mem_map.mpr ⟨(i, d), hd, rfl⟩

/-! ### C4: the sabotage rollback (corrected) -/

/-- C4 counterexample.  The claim says the new score equals the old score
minus the boxes lost.  At `gsZeroScoreOwner`, player 0 owns box `(0,0)` but
has score 0 (so `score - lost = -1`); the rollback at dot `(0,0)` publishes
score `max(0, 0-1) = 0`, not `-1`: `Math.max(0, …)` clamps the write. -/
theorem sabotage_clamps_score_at_zero :
    (GPath.playerScoreP 0, GVal.intV 0) ∈
      calculateSabotageEffect gsZeroScoreOwner ⟨0, 0⟩ ∧
    sabLostCount gsZeroScoreOwner ⟨0, 0⟩ 0 = 1 ∧
    scoreOf gsZeroScoreOwner 0 - (1 : Int) ≠ 0 := by
  decide

/-- C4 amended.  On well-formed documents the rollback for a tapped dot
deletes exactly the existing lines with that dot as an endpoint, removes
exactly the completed boxes bordered by at least one removed line, and for
each owner losing at least one box publishes exactly one score update whose
value is `max 0 (old score - boxes lost)` — which equals `old - lost`
whenever the owner's score is at least the boxes lost. -/
theorem sabotage_rollback_exact (gs : GameState) (dot : RC)
    (hL : WFLines gs) (hB : WFBoxes gs) :
    (∀ lk : LineKey,
      ((GPath.lineP lk, GVal.nullV) ∈ calculateSabotageEffect gs dot ↔
        (alookup lk gs.lines).isSome = true ∧ lineTouchesDot lk dot = true)) ∧
    (∀ bk : RC,
      ((GPath.boxP bk, GVal.nullV) ∈ calculateSabotageEffect gs dot ↔
        (alookup bk gs.boxes).isSome = true ∧
        ∃ lk, (GPath.lineP lk, GVal.nullV) ∈ calculateSabotageEffect gs dot ∧
          lineBordersBox lk bk = true)) ∧
    (∀ (i : Nat) (v : Int),
      (GPath.playerScoreP i, GVal.intV v) ∈ calculateSabotageEffect gs dot →
        v = max 0 (scoreOf gs i - (sabLostCount gs dot i : Int))) ∧
    (∀ i : Nat, 0 < sabLostCount gs dot i →
      ∃ v : Int, (GPath.playerScoreP i, GVal.intV v) ∈
        calculateSabotageEffect gs dot) := by
  have hline : ∀ lk : LineKey,
      ((GPath.lineP lk, GVal.nullV) ∈ calculateSabotageEffect gs dot ↔
        (alookup lk gs.lines).isSome = true ∧ lineTouchesDot lk dot = true) := by
    intro lk
    rw [mem_calc_line]
    constructor
    · rintro ⟨o, ho⟩
      obtain ⟨h1, h2⟩ := connectedLines_sound ho
      exact ⟨by rw [h1]; rfl, h2⟩
    · rintro ⟨h1, h2⟩
      obtain ⟨o, ho⟩ := Option.isSome_iff_exists.mp h1
      exact ⟨o, connectedLines_complete hL ho h2⟩
  refine ⟨hline, ?_, ?_, ?_⟩
  · intro bk
    rw [mem_calc_box]
    unfold sabotageRemovals
    rw [List.mem_filter]
    constructor
    · rintro ⟨haff, hsome⟩
      refine ⟨hsome, ?_⟩
      obtain ⟨⟨l1, l2⟩, hl, hcand⟩ := (mem_sabAffectedBoxes gs dot bk).mp haff
      obtain ⟨-, hborder⟩ := sabBoxCandidates_sound hcand
      obtain ⟨hlook, htouch⟩ := connectedLines_sound hl
      exact ⟨l1, (hline l1).mpr ⟨by rw [hlook]; rfl, htouch⟩, hborder⟩
    · rintro ⟨hsome, lk, hlk, hborder⟩
      refine ⟨?_, hsome⟩
      obtain ⟨hl1, -⟩ := (hline lk).mp hlk
      obtain ⟨o, ho⟩ := Option.isSome_iff_exists.mp hl1
      have hv : boxKeyValid (gridSizeOr6 gs - 1) bk = true :=
        hB _ (alookup_mem (Option.isSome_iff_exists.mp hsome).choose_spec)
      refine (mem_sabAffectedBoxes gs dot bk).mpr ?_
      obtain ⟨o', ho'⟩ := (mem_calc_line gs dot lk).mp hlk
      exact ⟨(lk, o'), ho', sabBoxCandidates_complete hsome hborder hv⟩
  · intro i v hv
    obtain ⟨d, hd, rfl⟩ := (mem_calc_score gs dot i v).mp hv
    have hlook := alookup_of_mem_nodup
      (calcDeductions_nodup gs (sabAffectedBoxes gs dot)) hd
    have := calcDeductions_lookupD gs (sabAffectedBoxes gs dot) i
    rw [hlook] at this
    simp only [Option.getD_some] at this
    rw [sabLostCount_eq_affected, ← this]
  · intro i hpos
    rw [sabLostCount_eq_affected] at hpos
    rw [← calcDeductions_lookupD gs (sabAffectedBoxes gs dot) i] at hpos
    cases hl : alookup i (calcDeductions gs (sabAffectedBoxes gs dot)) with
    | none => rw [hl] at hpos; cases hpos
    | some d =>
      refine ⟨max 0 (scoreOf gs i - (d : Int)), ?_⟩
      rw [mem_calc_score]
      exact ⟨d, alookup_mem hl, rfl⟩

/-- Witness for C4 amended at a concrete state: the rollback at `(0,0)` on
`gsOneGoldenOnePenalty` (whose six lines and empty box map are well
formed). -/
theorem sabotage_rollback_exact_witness :
    WFLines gsOneGoldenOnePenalty ∧ WFBoxes gsOneGoldenOnePenalty ∧
    (∀ (i : Nat) (v : Int),
      (GPath.playerScoreP i, GVal.intV v) ∈
          calculateSabotageEffect gsOneGoldenOnePenalty ⟨2, 2⟩ →
        v = max 0 (scoreOf gsOneGoldenOnePenalty i -
          (sabLostCount gsOneGoldenOnePenalty ⟨2, 2⟩ i : Int))) := by
  refine ⟨?_, ?_, ?_⟩
  · intro p hp
    fin_cases hp <;> decide
  · intro p hp
    cases hp
  · exact (sabotage_rollback_exact gsOneGoldenOnePenalty ⟨2, 2⟩
      (by intro p hp; fin_cases hp <;> decide) (by intro p hp; cases hp)).2.2.1

/-! ### Insert/remove bookkeeping for the move and C9 -/

lemma aremove_eq_filter {α β : Type} [DecidableEq α] (k : α) (l : List (α × β)) :
    aremove k l = l.filter fun p => p.1 ≠ k := by
  induction l with
  | nil => rfl
  | cons p t ih =>
    unfold aremove
    by_cases hp : p.1 = k
    · rw [if_pos hp, List.filter_cons_of_neg (by simp [hp])]
      exact ih
    · rw [if_neg hp, List.filter_cons_of_pos (by simp [hp]), ih]

lemma alookup_aremove {α β : Type} [DecidableEq α] (k k' : α) (l : List (α × β))
    (h : k' ≠ k) : alookup k (aremove k' l) = alookup k l := by
  induction l with
  | nil => rfl
  | cons p t ih =>
    unfold aremove
    by_cases hp : p.1 = k'
    · rw [if_pos hp, ih]
      have hpk : ¬p.1 = k := by rw [hp]; exact h
      conv_rhs => unfold alookup
      rw [if_neg hpk]
    · rw [if_neg hp]
      unfold alookup
      by_cases hpk : p.1 = k
      · rw [if_pos hpk, if_pos hpk]
      · rw [if_neg hpk, if_neg hpk, ih]

lemma alookup_ainsert {α β : Type} [DecidableEq α] (k k' : α) (v : β)
    (l : List (α × β)) :
    alookup k (ainsert k' v l) = if k' = k then some v else alookup k l := by
  by_cases hk : k' = k
  · simp [ainsert, alookup, hk]
  · simp [ainsert, alookup, hk, alookup_aremove k k' l hk]

lemma alookup_foldl_ainsert_none {α β : Type} [DecidableEq α]
    (adds : List (α × β)) (l : List (α × β)) (k : α) :
    alookup k (adds.foldl (fun b p => ainsert p.1 p.2 b) l) = none ↔
      alookup k l = none ∧ ∀ p ∈ adds, p.1 ≠ k := by
  induction adds generalizing l with
  | nil => simp
  | cons p t ih =>
    rw [List.foldl_cons, ih]
    rw [alookup_ainsert]
    by_cases hp : p.1 = k
    · rw [if_pos hp]
      simp [hp]
    · rw [if_neg hp]
      constructor
      · rintro ⟨h1, h2⟩
        exact ⟨h1, by
          intro q hq
          rcases List.mem_cons.mp hq with rfl | hq
          · exact hp
          · exact h2 q hq⟩
      · rintro ⟨h1, h2⟩
        exact ⟨h1, fun q hq => h2 q (List.mem_cons_of_mem p hq)⟩

/-- A kept entry of `findCompletedBoxes` is an unowned box carrying its
special type. -/
lemma findCompletedBoxes_mem {gs : GameState} {i row col : Nat} {dir : Dir}
    {b : RC} {t : BoxType} (h : (b, t) ∈ findCompletedBoxes gs i row col dir) :
    alookup b gs.boxes = none ∧ t = getSpecialSquareType gs b.row b.col := by
  unfold findCompletedBoxes at h
  obtain ⟨x, -, he⟩ := List.mem_filterMap.mp h
  by_cases h1 : (alookup x gs.boxes).isSome
  · rw [if_pos h1] at he
    cases he
  · rw [if_neg h1] at he
    by_cases h2 : isCompleteTemp gs i (getLineKey row col dir) x.row x.col
    · rw [if_pos h2] at he
      injection he with he
      injection he with he1 he2
      subst he1
      subst he2
      exact ⟨Option.not_isSome_iff_eq_none.mp h1, rfl⟩
    · rw [if_neg h2] at he
      cases he

lemma getSpecialSquareType_cases (gs : GameState) (r c : Nat) :
    (getSpecialSquareType gs r c = BoxType.golden ↔
      getBoxKey r c ∈ gs.specialSquares.golden) ∧
    (getSpecialSquareType gs r c = BoxType.penalty ↔
      (getBoxKey r c ∉ gs.specialSquares.golden ∧
        getBoxKey r c ∈ gs.specialSquares.penalty)) ∧
    (getSpecialSquareType gs r c = BoxType.normal ↔
      (getBoxKey r c ∉ gs.specialSquares.golden ∧
        getBoxKey r c ∉ gs.specialSquares.penalty)) := by
  unfold getSpecialSquareType
  by_cases h1 : getBoxKey r c ∈ gs.specialSquares.golden <;>
    by_cases h2 : getBoxKey r c ∈ gs.specialSquares.penalty <;>
      simp [h1, h2]

/-- The list `allBoxPositions` has each coordinate once. -/
lemma allBoxPositions_nodup (boxCount : Nat) : (allBoxPositions boxCount).Nodup := by
  unfold allBoxPositions
  rw [List.nodup_flatMap]
  constructor
  · intro r _
    exact (List.nodup_range boxCount).map fun a b hab => by simpa using hab
  · rw [List.pairwise_iff_forall_sublist]
    intro r r' hsub
    have hne : r ≠ r' := by
      have := hsub.nodup (List.nodup_range boxCount)
      simp at this
      exact this
    intro x hx hx'
    obtain ⟨c, -, rfl⟩ := List.mem_map.mp hx
    obtain ⟨c', -, he⟩ := List.mem_map.mp hx'
    injection he with h1 h2
    exact hne h1.symm

lemma respawn_golden_eq (gs : GameState) (g2 p2 just : List RC)
    (shuffle : List RC → List RC) :
    (respawnSpecialSquares gs g2 p2 just shuffle).golden =
      gs.specialSquares.golden.filter (fun k => k ∉ g2) ++
        (shuffle (respawnUnoccupied gs g2 p2 just)).take g2.length := rfl

lemma respawn_penalty_eq (gs : GameState) (g2 p2 just : List RC)
    (shuffle : List RC → List RC) :
    (respawnSpecialSquares gs g2 p2 just shuffle).penalty =
      gs.specialSquares.penalty.filter (fun k => k ∉ p2) ++
        ((shuffle (respawnUnoccupied gs g2 p2 just)).drop g2.length).take p2.length := rfl

lemma respawnUnoccupied_spec (gs : GameState) (g2 p2 just : List RC) (k : RC)
    (h : k ∈ respawnUnoccupied gs g2 p2 just) :
    alookup k gs.boxes = none ∧ k ∉ just ∧
      k ∉ gs.specialSquares.golden.filter (fun k => k ∉ g2) ∧
      k ∉ gs.specialSquares.penalty.filter (fun k => k ∉ p2) := by
  unfold respawnUnoccupied at h
  obtain ⟨-, hc⟩ := List.mem_filter.mp h
  rw [Bool.and_eq_true, Bool.and_eq_true, Bool.and_eq_true] at hc
  obtain ⟨⟨⟨h1, h2⟩, h3⟩, h4⟩ := hc
  exact ⟨Option.isNone_iff_eq_none.mp h1, of_decide_eq_true h2,
    of_decide_eq_true h3, of_decide_eq_true h4⟩

lemma respawnUnoccupied_nodup (gs : GameState) (g2 p2 just : List RC) :
    (respawnUnoccupied gs g2 p2 just).Nodup :=
  (allBoxPositions_nodup _).filter _

/-! ### C9: disjointness of golden, penalty, and completed boxes -/

/-- C9.  If a state separates golden squares, penalty squares, and
completed boxes, then after processing any accepted move (special-square
consumption and respawn included, for every shuffle outcome) the resulting
state still does: each coordinate is in at most one of the three
collections, and golden and penalty stay disjoint. -/
theorem move_preserves_disjointness
    (gs : GameState) (i : Nat) (sab : SabotageState) (row col : Nat) (dir : Dir)
    (shuffle : List RC → List RC) (u : MoveUpdates)
    (hsh : ∀ l, (shuffle l).Perm l)
    (hpre : DisjointSpecials gs)
    (h : handleLineDrawAttempt gs i sab row col dir shuffle = some u) :
    DisjointSpecials (applyMoveUpdates gs u) := by
  obtain ⟨-, -, hu⟩ := handle_eq_some gs i sab row col dir shuffle u h
  subst hu
  obtain ⟨hGP, hGB, hPB⟩ := hpre
  have hkey : ∀ b : RC, getBoxKey b.row b.col = b := fun b => rfl
  have hcases := fun (b : RC) => getSpecialSquareType_cases gs b.row b.col
  have hboxnull : ∀ k : RC,
      alookup k (applyMoveUpdates gs (processMove gs i row col dir shuffle)).boxes = none ↔
        (alookup k gs.boxes = none ∧
          k ∉ (findCompletedBoxes gs i row col dir).map Prod.fst) := by
    intro k
    show alookup k ((processMove gs i row col dir shuffle).boxUpdates.foldl
      (fun b p => ainsert p.1 p.2 b) gs.boxes) = none ↔ _
    rw [processMove_boxUpdates, alookup_foldl_ainsert_none]
    constructor
    · rintro ⟨h1, h2⟩
      refine ⟨h1, ?_⟩
      intro hk
      obtain ⟨b, hb, rfl⟩ := List.mem_map.mp hk
      exact h2 _ (List.mem_map_of_mem _ hb) rfl
    · rintro ⟨h1, h2⟩
      refine ⟨h1, ?_⟩
      intro p hp
      obtain ⟨b, hb, rfl⟩ := List.mem_map.mp hp
      intro he
      exact h2 (he ▸ List.mem_map_of_mem Prod.fst hb)
  have hmem_g2 : ∀ k : RC,
      k ∈ ((findCompletedBoxes gs i row col dir).filter
          fun b => decide (b.2 = BoxType.golden)).map Prod.fst ↔
        (k, BoxType.golden) ∈ findCompletedBoxes gs i row col dir := by
    intro k
    constructor
    · intro hk
      obtain ⟨⟨b, t⟩, hb, rfl⟩ := List.mem_map.mp hk
      obtain ⟨hb1, hb2⟩ := List.mem_filter.mp hb
      have ht : t = BoxType.golden := of_decide_eq_true hb2
      rw [ht] at hb1
      exact hb1
    · intro hk
      exact List.mem_map.mpr ⟨(k, BoxType.golden),
        List.mem_filter.mpr ⟨hk, by simp⟩, rfl⟩
  have hmem_p2 : ∀ k : RC,
      k ∈ ((findCompletedBoxes gs i row col dir).filter
          fun b => decide (b.2 = BoxType.penalty)).map Prod.fst ↔
        (k, BoxType.penalty) ∈ findCompletedBoxes gs i row col dir := by
    intro k
    constructor
    · intro hk
      obtain ⟨⟨b, t⟩, hb, rfl⟩ := List.mem_map.mp hk
      obtain ⟨hb1, hb2⟩ := List.mem_filter.mp hb
      have ht : t = BoxType.penalty := of_decide_eq_true hb2
      rw [ht] at hb1
      exact hb1
    · intro hk
      exact List.mem_map.mpr ⟨(k, BoxType.penalty),
        List.mem_filter.mpr ⟨hk, by simp⟩, rfl⟩
  have hspec : (applyMoveUpdates gs (processMove gs i row col dir shuffle)).specialSquares =
      ((processMove gs i row col dir shuffle).specialSquaresUpdate).getD
        gs.specialSquares := rfl
  by_cases hR : ((findCompletedBoxes gs i row col dir).any
      (fun b => decide (b.2 = BoxType.golden)) ||
    (findCompletedBoxes gs i row col dir).any
      (fun b => decide (b.2 = BoxType.penalty))) = true
  case neg =>
    -- no special square was consumed: every completed box is normal
    rw [Bool.or_eq_true, not_or] at hR
    obtain ⟨hnoG, hnoP⟩ := hR
    have hnG : ∀ b : RC, (b, BoxType.golden) ∉ findCompletedBoxes gs i row col dir := by
      intro b hb
      exact hnoG (List.any_eq_true.mpr ⟨(b, BoxType.golden), hb, by simp⟩)
    have hnP : ∀ b : RC, (b, BoxType.penalty) ∉ findCompletedBoxes gs i row col dir := by
      intro b hb
      exact hnoP (List.any_eq_true.mpr ⟨(b, BoxType.penalty), hb, by simp⟩)
    have hs2 : (applyMoveUpdates gs (processMove gs i row col dir shuffle)).specialSquares =
        gs.specialSquares := by
      rw [hspec, processMove_specialUpdate, if_neg (by
        rw [Bool.or_eq_true, not_or]
        exact ⟨hnoG, hnoP⟩)]
      rfl
    have hnotjust : ∀ k : RC,
        (k ∈ gs.specialSquares.golden ∨ k ∈ gs.specialSquares.penalty) →
        k ∉ (findCompletedBoxes gs i row col dir).map Prod.fst := by
      intro k hk hj
      obtain ⟨⟨b, t⟩, hb, rfl⟩ := List.mem_map.mp hj
      obtain ⟨-, hty⟩ := findCompletedBoxes_mem hb
      rcases hk with hk | hk
      · have : getSpecialSquareType gs b.row b.col = BoxType.golden :=
          ((hcases b).1).mpr (by rw [hkey b]; exact hk)
        exact hnG b (by rw [← this, ← hty] at *; exact hty ▸ this ▸ hb)
      · have hbg : b ∉ gs.specialSquares.golden := fun hg => hGP b hg hk
        have : getSpecialSquareType gs b.row b.col = BoxType.penalty :=
          ((hcases b).2.1).mpr (by rw [hkey b]; exact ⟨hbg, hk⟩)
        exact hnP b (by rw [← this, ← hty] at *; exact hty ▸ this ▸ hb)
    refine ⟨?_, ?_, ?_⟩
    · rw [hs2]
      exact hGP
    · rw [hs2]
      intro k hk
      rw [hboxnull k]
      exact ⟨hGB k hk, hnotjust k (Or.inl hk)⟩
    · rw [hs2]
      intro k hk
      rw [hboxnull k]
      exact ⟨hPB k hk, hnotjust k (Or.inr hk)⟩
  case pos =>
    have hs2 : (applyMoveUpdates gs (processMove gs i row col dir shuffle)).specialSquares =
        respawnSpecialSquares gs
          (((findCompletedBoxes gs i row col dir).filter
              fun b => decide (b.2 = BoxType.golden)).map Prod.fst)
          (((findCompletedBoxes gs i row col dir).filter
              fun b => decide (b.2 = BoxType.penalty)).map Prod.fst)
          ((findCompletedBoxes gs i row col dir).map Prod.fst) shuffle := by
      rw [hspec, processMove_specialUpdate, if_pos hR]
      rfl
    set g2 := ((findCompletedBoxes gs i row col dir).filter
        fun b => decide (b.2 = BoxType.golden)).map Prod.fst with hg2def
    set p2 := ((findCompletedBoxes gs i row col dir).filter
        fun b => decide (b.2 = BoxType.penalty)).map Prod.fst with hp2def
    set just := (findCompletedBoxes gs i row col dir).map Prod.fst with hjustdef
    set U := respawnUnoccupied gs g2 p2 just with hUdef
    have hUperm := hsh U
    have hshufN : (shuffle U).Nodup := (hUperm.nodup_iff).mpr (respawnUnoccupied_nodup gs g2 p2 just)
    have hsplit : ((shuffle U).take g2.length ++ (shuffle U).drop g2.length).Nodup := by
      rw [List.take_append_drop]
      exact hshufN
    have htdDisj : ∀ x, x ∈ (shuffle U).take g2.length →
        x ∈ (shuffle U).drop g2.length → False := by
      intro x hx hx'
      exact (List.nodup_append.mp hsplit).2.2 hx hx'
    have hUmem : ∀ x, x ∈ shuffle U → x ∈ U := fun x hx => (hUperm.mem_iff).mp hx
    refine ⟨?_, ?_, ?_⟩
    · -- golden' disjoint from penalty'
      rw [hs2]
      intro k hk hk'
      rw [respawn_golden_eq] at hk
      rw [respawn_penalty_eq] at hk'
      rcases List.mem_append.mp hk with hkg | hkg <;>
        rcases List.mem_append.mp hk' with hkp | hkp
      · obtain ⟨hk1, -⟩ := List.mem_filter.mp hkg
        obtain ⟨hk2, -⟩ := List.mem_filter.mp hkp
        exact hGP k hk1 hk2
      · have hU := respawnUnoccupied_spec gs g2 p2 just k
          (hUmem k (List.mem_of_mem_drop (List.mem_of_mem_take hkp)))
        exact hU.2.2.1 hkg
      · have hU := respawnUnoccupied_spec gs g2 p2 just k
          (hUmem k (List.mem_of_mem_take hkg))
        exact hU.2.2.2 hkp
      · exact htdDisj k hkg (List.mem_of_mem_take hkp)
    · -- golden' avoids the box map
      rw [hs2]
      intro k hk
      rw [respawn_golden_eq] at hk
      rw [hboxnull k]
      rcases List.mem_append.mp hk with hkg | hkg
      · obtain ⟨hk1, hk2⟩ := List.mem_filter.mp hkg
        refine ⟨hGB k hk1, ?_⟩
        intro hj
        obtain ⟨⟨b, t⟩, hb, rfl⟩ := List.mem_map.mp hj
        obtain ⟨-, hty⟩ := findCompletedBoxes_mem hb
        have : getSpecialSquareType gs b.row b.col = BoxType.golden :=
          ((hcases b).1).mpr (by rw [hkey b]; exact hk1)
        have hbG : (b, BoxType.golden) ∈ findCompletedBoxes gs i row col dir := by
          rw [← this, ← hty]
          exact hb
        exact of_decide_eq_true hk2 ((hmem_g2 b).mpr hbG)
      · have hU := respawnUnoccupied_spec gs g2 p2 just k
          (hUmem k (List.mem_of_mem_take hkg))
        exact ⟨hU.1, hU.2.1⟩
    · -- penalty' avoids the box map
      rw [hs2]
      intro k hk
      rw [respawn_penalty_eq] at hk
      rw [hboxnull k]
      rcases List.mem_append.mp hk with hkp | hkp
      · obtain ⟨hk1, hk2⟩ := List.mem_filter.mp hkp
        refine ⟨hPB k hk1, ?_⟩
        intro hj
        obtain ⟨⟨b, t⟩, hb, rfl⟩ := List.mem_map.mp hj
        obtain ⟨-, hty⟩ := findCompletedBoxes_mem hb
        have hbg : b ∉ gs.specialSquares.golden := fun hg => hGP b hg hk1
        have : getSpecialSquareType gs b.row b.col = BoxType.penalty :=
          ((hcases b).2.1).mpr (by rw [hkey b]; exact ⟨hbg, hk1⟩)
        have hbP : (b, BoxType.penalty) ∈ findCompletedBoxes gs i row col dir := by
          rw [← this, ← hty]
          exact hb
        exact of_decide_eq_true hk2 ((hmem_p2 b).mpr hbP)
      · have hU := respawnUnoccupied_spec gs g2 p2 just k
          (hUmem k (List.mem_of_mem_drop (List.mem_of_mem_take hkp)))
        exact ⟨hU.1, hU.2.1⟩

/-- Witness for C9: a golden box is completed and respawned at a concrete
state with the identity shuffle outcome; separation still holds after. -/
theorem move_preserves_disjointness_witness :
    (∀ l : List RC, (id l).Perm l) ∧ DisjointSpecials gsOneGoldenOnePenalty ∧
    DisjointSpecials (applyMoveUpdates gsOneGoldenOnePenalty
      (processMove gsOneGoldenOnePenalty 0 2 3 Dir.v id)) :=
  ⟨fun l => List.Perm.refl l, by unfold DisjointSpecials; decide,
    move_preserves_disjointness gsOneGoldenOnePenalty 0 sabNone 2 3 Dir.v id
      (processMove gsOneGoldenOnePenalty 0 2 3 Dir.v id)
      (fun l => List.Perm.refl l) (by unfold DisjointSpecials; decide) rfl⟩

/-! ### Player-list and counting utilities for the score invariant -/

lemma scoreOf_eq_scoreOfL (gs : GameState) (i : Nat) :
    scoreOf gs i = scoreOfL gs.playersArray i := rfl

lemma length_setPlayerScore (pl : List Player) (i : Nat) (v : Int) :
    (setPlayerScore pl i v).length = pl.length := by
  induction pl generalizing i with
  | nil => rfl
  | cons p t ih =>
    cases i with
    | zero => rfl
    | succ j => simp [setPlayerScore, ih]

lemma length_setPlayerBanked (pl : List Player) (i : Nat) (v : Int) :
    (setPlayerBanked pl i v).length = pl.length := by
  induction pl generalizing i with
  | nil => rfl
  | cons p t ih =>
    cases i with
    | zero => rfl
    | succ j => simp [setPlayerBanked, ih]

lemma scoreOfL_setPlayerScore_self (pl : List Player) (i : Nat) (v : Int)
    (h : i < pl.length) : scoreOfL (setPlayerScore pl i v) i = v := by
  induction pl generalizing i with
  | nil => cases h
  | cons p t ih =>
    cases i with
    | zero => simp [setPlayerScore, scoreOfL]
    | succ j =>
      have := ih j (by simpa using h)
      simpa [setPlayerScore, scoreOfL] using this

lemma scoreOfL_setPlayerScore_ne (pl : List Player) (i j : Nat) (v : Int)
    (h : j ≠ i) : scoreOfL (setPlayerScore pl i v) j = scoreOfL pl j := by
  induction pl generalizing i j with
  | nil => cases i <;> rfl
  | cons p t ih =>
    cases i with
    | zero =>
      cases j with
      | zero => exact absurd rfl h
      | succ j' => simp [setPlayerScore, scoreOfL]
    | succ i' =>
      cases j with
      | zero => simp [setPlayerScore, scoreOfL]
      | succ j' =>
        have := ih i' j' (fun hh => h (by rw [hh]))
        simpa [setPlayerScore, scoreOfL] using this

lemma scoreOfL_setPlayerBanked (pl : List Player) (i j : Nat) (v : Int) :
    scoreOfL (setPlayerBanked pl i v) j = scoreOfL pl j := by
  induction pl generalizing i j with
  | nil => cases i <;> rfl
  | cons p t ih =>
    cases i with
    | zero =>
      cases j with
      | zero => simp [setPlayerBanked, scoreOfL]
      | succ j' => simp [setPlayerBanked, scoreOfL]
    | succ i' =>
      cases j with
      | zero => simp [setPlayerBanked, scoreOfL]
      | succ j' =>
        have := ih i' j'
        simpa [setPlayerBanked, scoreOfL] using this

lemma sum_map_score (pl : List Player) :
    (pl.map Player.score).sum = ∑ j ∈ Finset.range pl.length, scoreOfL pl j := by
  induction pl with
  | nil => simp
  | cons p t ih =>
    rw [List.map_cons, List.sum_cons, ih, List.length_cons,
      Finset.sum_range_succ']
    have h0 : scoreOfL (p :: t) 0 = p.score := by simp [scoreOfL]
    have hs : ∀ j, scoreOfL (p :: t) (j + 1) = scoreOfL t j := by
      intro j
      simp [scoreOfL]
    rw [h0, Finset.sum_congr rfl fun j _ => hs j]
    exact add_comm _ _

lemma countP_or_disjoint {α : Type} (l : List α) (p q : α → Bool)
    (h : ∀ x ∈ l, ¬(p x = true ∧ q x = true)) :
    l.countP (fun x => p x || q x) = l.countP p + l.countP q := by
  induction l with
  | nil => rfl
  | cons a t ih =>
    have ht : ∀ x ∈ t, ¬(p x = true ∧ q x = true) :=
      fun x hx => h x (List.mem_cons_of_mem a hx)
    rw [List.countP_cons, List.countP_cons, List.countP_cons, ih ht]
    by_cases hp : p a <;> by_cases hq : q a
    · exact absurd ⟨hp, hq⟩ (h a (List.mem_cons_self a t))
    · simp [hp, hq] <;> omega
    · simp [hp, hq] <;> omega
    · simp [hp, hq]

lemma countP_split {α : Type} (l : List α) (p q : α → Bool) :
    l.countP p =
      l.countP (fun a => p a && q a) + l.countP (fun a => p a && !q a) := by
  induction l with
  | nil => rfl
  | cons a t ih =>
    rw [List.countP_cons, List.countP_cons, List.countP_cons, ih]
    by_cases hp : p a <;> by_cases hq : q a <;> simp [hp, hq] <;> omega

lemma sum_countP_owner (l : List (RC × BoxVal)) (n : Nat) :
    (∑ j ∈ Finset.range n, l.countP fun p => decide (p.2.ownerId = j)) =
      l.countP fun p => decide (p.2.ownerId < n) := by
  induction n with
  | zero =>
    simp
  | succ m ih =>
    rw [Finset.sum_range_succ, ih]
    rw [← countP_or_disjoint l _ _ (by
      intro x _
      rw [decide_eq_true_eq, decide_eq_true_eq]
      omega)]
    refine List.countP_congr ?_
    intro x _
    rw [Bool.or_eq_true, decide_eq_true_eq, decide_eq_true_eq, decide_eq_true_eq]
    constructor
    · intro hx
      omega
    · intro hx
      omega

lemma countP_eq_length_of_all {α : Type} (l : List α) (p : α → Bool)
    (h : ∀ a ∈ l, p a = true) : l.countP p = l.length := by
  induction l with
  | nil => rfl
  | cons a t ih =>
    rw [List.countP_cons, if_pos (h a (List.mem_cons_self a t)),
      ih fun x hx => h x (List.mem_cons_of_mem a hx), List.length_cons]

/-! ### Fresh inserts, removals, and key/entry counting -/

lemma alookup_none_iff_not_mem_keys {α β : Type} [DecidableEq α] {k : α}
    {l : List (α × β)} : alookup k l = none ↔ k ∉ l.map Prod.fst := by
  rw [alookup_eq_none_iff]
  constructor
  · intro h hk
    obtain ⟨p, hp, rfl⟩ := List.mem_map.mp hk
    exact h p hp rfl
  · intro h p hp he
    exact h (he ▸ List.mem_map_of_mem Prod.fst hp)

lemma aremove_of_fresh {α β : Type} [DecidableEq α] {k : α} {l : List (α × β)}
    (h : alookup k l = none) : aremove k l = l := by
  induction l with
  | nil => rfl
  | cons p t ih =>
    unfold alookup at h
    by_cases hp : p.1 = k
    · rw [if_pos hp] at h
      cases h
    · rw [if_neg hp] at h
      unfold aremove
      rw [if_neg hp, ih h]

lemma foldl_ainsert_fresh {α β : Type} [DecidableEq α] (adds l : List (α × β))
    (hfresh : ∀ p ∈ adds, alookup p.1 l = none) (hnd : NodupKeys adds) :
    adds.foldl (fun b p => ainsert p.1 p.2 b) l = adds.reverse ++ l := by
  induction adds generalizing l with
  | nil => rfl
  | cons p t ih =>
    rw [List.foldl_cons]
    have hins : ainsert p.1 p.2 l = p :: l := by
      unfold ainsert
      rw [aremove_of_fresh (hfresh p (List.mem_cons_self p t))]
    rw [hins]
    have hnd' : NodupKeys t := by
      unfold NodupKeys at hnd ⊢
      simp only [List.map_cons, List.nodup_cons] at hnd
      exact hnd.2
    have hfresh' : ∀ q ∈ t, alookup q.1 (p :: l) = none := by
      intro q hq
      unfold alookup
      have hne : p.1 ≠ q.1 := by
        intro he
        unfold NodupKeys at hnd
        simp only [List.map_cons, List.nodup_cons] at hnd
        exact hnd.1 (he ▸ List.mem_map_of_mem Prod.fst hq)
      rw [if_neg hne]
      exact hfresh q (List.mem_cons_of_mem p hq)
    rw [ih (p :: l) hfresh' hnd', List.reverse_cons, List.append_assoc]
    rfl

lemma countP_keys_entries (l : List (RC × BoxVal)) (keys : List RC)
    (hnd : NodupKeys l) (hk : keys.Nodup)
    (hpres : ∀ k ∈ keys, (alookup k l).isSome = true) (q : RC × BoxVal → Bool) :
    keys.countP (fun k =>
        match alookup k l with
        | some v => q (k, v)
        | none => false) =
      l.countP fun p => decide (p.1 ∈ keys) && q p := by
  induction keys with
  | nil =>
    rw [List.countP_nil]
    symm
    rw [List.countP_eq_zero]
    intro p _
    simp
  | cons k t ih =>
    have hkt : k ∉ t := (List.nodup_cons.mp hk).1
    have ht : t.Nodup := (List.nodup_cons.mp hk).2
    have hpt : ∀ k' ∈ t, (alookup k' l).isSome = true :=
      fun k' hk' => hpres k' (List.mem_cons_of_mem k hk')
    rw [List.countP_cons, ih ht hpt]
    obtain ⟨v, hv⟩ := Option.isSome_iff_exists.mp (hpres k (List.mem_cons_self k t))
    have hsingle : l.countP (fun p => decide (p.1 = k) && q p) =
        if q (k, v) then 1 else 0 := by
      clear ih hpres hpt
      induction l with
      | nil => cases hv
      | cons p s ihs =>
        unfold NodupKeys at hnd
        simp only [List.map_cons, List.nodup_cons] at hnd
        unfold alookup at hv
        rw [List.countP_cons]
        by_cases hp : p.1 = k
        · rw [if_pos hp] at hv
          injection hv with hv
          have hz : s.countP (fun p => decide (p.1 = k) && q p) = 0 := by
            rw [List.countP_eq_zero]
            intro r hr
            have : r.1 ≠ k := by
              intro he
              exact hnd.1 (hp ▸ he ▸ List.mem_map_of_mem Prod.fst hr)
            simp [this]
          rw [hz]
          have hpk : p = (k, v) := by
            cases p
            simp_all
          rw [hpk]
          by_cases hq : q (k, v) <;> simp [hq]
        · rw [if_neg hp] at hv
          rw [ihs hnd.2 hv]
          simp [hp]
    have hsplit : l.countP (fun p => decide (p.1 ∈ k :: t) && q p) =
        l.countP (fun p => decide (p.1 = k) && q p) +
          l.countP (fun p => decide (p.1 ∈ t) && q p) := by
      rw [← countP_or_disjoint l _ _ (by
        intro x _
        rw [Bool.and_eq_true, Bool.and_eq_true, decide_eq_true_eq, decide_eq_true_eq]
        rintro ⟨⟨rfl, -⟩, hx2, -⟩
        exact hkt hx2)]
      refine List.countP_congr ?_
      intro x _
      rw [Bool.or_eq_true, Bool.and_eq_true, Bool.and_eq_true, Bool.and_eq_true]
      simp only [decide_eq_true_eq, List.mem_cons]
      tauto
    rw [hsplit, hsingle, hv]
    by_cases hq : q (k, v) <;> simp [hq] <;> omega

lemma foldl_aremove_eq_filter {α β : Type} [DecidableEq α]
    (keys : List α) (l : List (α × β)) :
    keys.foldl (fun b k => aremove k b) l =
      l.filter fun p => decide (p.1 ∉ keys) := by
  induction keys generalizing l with
  | nil =>
    rw [List.foldl_nil]
    symm
    rw [List.filter_eq_self]
    intro p _
    simp
  | cons k t ih =>
    rw [List.foldl_cons, ih, aremove_eq_filter, List.filter_filter]
    refine List.filter_congr ?_
    intro p _
    by_cases h1 : p.1 = k <;> by_cases h2 : p.1 ∈ t <;> simp [h1, h2]

lemma scoreOfL_foldl_setScore (sl : List (Nat × Int)) (pl : List Player)
    (hnd : NodupKeys sl) (hrange : ∀ p ∈ sl, p.1 < pl.length) (j : Nat) :
    scoreOfL (sl.foldl (fun pl p => setPlayerScore pl p.1 p.2) pl) j =
      match alookup j sl with
      | some v => v
      | none => scoreOfL pl j := by
  induction sl generalizing pl with
  | nil => rfl
  | cons p t ih =>
    have hnd' : NodupKeys t := by
      unfold NodupKeys at hnd ⊢
      simp only [List.map_cons, List.nodup_cons] at hnd
      exact hnd.2
    have hrange' : ∀ q ∈ t, q.1 < (setPlayerScore pl p.1 p.2).length := by
      intro q hq
      rw [length_setPlayerScore]
      exact hrange q (List.mem_cons_of_mem p hq)
    rw [List.foldl_cons, ih (setPlayerScore pl p.1 p.2) hnd' hrange']
    have hcons : alookup j (p :: t) = if p.1 = j then some p.2 else alookup j t := rfl
    rw [hcons]
    by_cases hj : p.1 = j
    · rw [if_pos hj]
      have hnt : alookup j t = none := by
        rw [alookup_none_iff_not_mem_keys]
        unfold NodupKeys at hnd
        simp only [List.map_cons, List.nodup_cons] at hnd
        exact hj ▸ hnd.1
      rw [hnt]
      subst hj
      exact scoreOfL_setPlayerScore_self pl p.1 p.2
        (hrange p (List.mem_cons_self p t))
    · rw [if_neg hj]
      cases hl : alookup j t with
      | some v => rfl
      | none => exact scoreOfL_setPlayerScore_ne pl p.1 j p.2 fun hh => hj hh.symm

lemma length_foldl_setScore (sl : List (Nat × Int)) (pl : List Player) :
    (sl.foldl (fun pl p => setPlayerScore pl p.1 p.2) pl).length = pl.length := by
  induction sl generalizing pl with
  | nil => rfl
  | cons p t ih =>
    rw [List.foldl_cons, ih, length_setPlayerScore]

/-! ### Keys of the completed boxes -/

lemma filterMap_key_sublist {α β : Type} (l : List α) (f : α → Option (α × β))
    (hf : ∀ x p, f x = some p → p.1 = x) :
    ((l.filterMap f).map Prod.fst).Sublist l := by
  induction l with
  | nil => simp
  | cons a t ih =>
    rw [List.filterMap_cons]
    cases hfa : f a with
    | none => exact ih.cons a
    | some p =>
      rw [List.map_cons, hf a p hfa]
      exact ih.cons₂ a

lemma boxesToCheck_nodup (gs : GameState) (row col : Nat) (dir : Dir) :
    (boxesToCheck gs row col dir).Nodup := by
  unfold boxesToCheck
  cases dir <;> dsimp only <;>
    by_cases h1 : 0 < row <;> by_cases h2 : 0 < col <;>
      by_cases h3 : row < gs.gridSize - 1 <;> by_cases h4 : col < gs.gridSize - 1 <;>
        simp [h1, h2, h3, h4, RC.mk.injEq] <;> omega

lemma findCompletedBoxes_keys_nodup (gs : GameState) (i row col : Nat) (dir : Dir) :
    ((findCompletedBoxes gs i row col dir).map Prod.fst).Nodup := by
  refine (boxesToCheck_nodup gs row col dir).sublist ?_
  unfold findCompletedBoxes
  refine filterMap_key_sublist _ _ ?_
  intro x p hx
  by_cases h1 : (alookup x gs.boxes).isSome
  · rw [if_pos h1] at hx
    cases hx
  · rw [if_neg h1] at hx
    by_cases h2 : isCompleteTemp gs i (getLineKey row col dir) x.row x.col
    · rw [if_pos h2] at hx
      injection hx with hx
      rw [← hx]
    · rw [if_neg h2] at hx
      cases hx

/-! ### Decomposing `applySabotage` into its three segments -/

lemma foldl_applyGUpdate_box_segment (keys : List RC) (gs : GameState) :
    (keys.map fun k => (GPath.boxP k, GVal.nullV)).foldl applyGUpdate gs =
      { gs with boxes := keys.foldl (fun b k => aremove k b) gs.boxes } := by
  induction keys generalizing gs with
  | nil => rfl
  | cons k t ih =>
    rw [List.map_cons, List.foldl_cons, List.foldl_cons]
    exact ih _

lemma foldl_applyGUpdate_score_segment (sl : List (Nat × Int)) (gs : GameState) :
    (sl.map fun p => (GPath.playerScoreP p.1, GVal.intV p.2)).foldl applyGUpdate gs =
      { gs with playersArray :=
          sl.foldl (fun pl p => setPlayerScore pl p.1 p.2) gs.playersArray } := by
  induction sl generalizing gs with
  | nil => rfl
  | cons p t ih =>
    rw [List.map_cons, List.foldl_cons, List.foldl_cons]
    exact ih _

lemma foldl_applyGUpdate_line_segment (keys : List LineKey) (gs : GameState) :
    (keys.map fun k => (GPath.lineP k, GVal.nullV)).foldl applyGUpdate gs =
      { gs with lines := keys.foldl (fun b k => aremove k b) gs.lines } := by
  induction keys generalizing gs with
  | nil => rfl
  | cons k t ih =>
    rw [List.map_cons, List.foldl_cons, List.foldl_cons]
    exact ih _

/-- The sabotage rollback in closed form: boxes and lines filtered by the
removal keys, scores rewritten from the deduction tally. -/
lemma applySabotage_eq (gs : GameState) (dot : RC) :
    applySabotage gs dot =
      { gs with
        boxes := gs.boxes.filter fun p =>
          decide (p.1 ∉ sabotageRemovals gs dot)
        playersArray :=
          ((calcDeductions gs (sabAffectedBoxes gs dot)).map fun p =>
            (p.1, max 0 (scoreOf gs p.1 - (p.2 : Int)))).foldl
              (fun pl p => setPlayerScore pl p.1 p.2) gs.playersArray
        lines := gs.lines.filter fun p =>
          decide (p.1 ∉ (connectedLines gs dot).map Prod.fst) } := by
  unfold applySabotage calculateSabotageEffect
  rw [List.foldl_append, List.foldl_append]
  have hscore : ((calcDeductions gs (sabAffectedBoxes gs dot)).map fun p =>
      (GPath.playerScoreP p.1, GVal.intV (max 0 (scoreOf gs p.1 - (p.2 : Int))))) =
      (((calcDeductions gs (sabAffectedBoxes gs dot)).map fun p =>
        (p.1, max 0 (scoreOf gs p.1 - (p.2 : Int)))).map fun q =>
          (GPath.playerScoreP q.1, GVal.intV q.2)) := by
    rw [List.map_map]
    rfl
  have hlines : ((connectedLines gs dot).map fun l =>
      (GPath.lineP l.1, GVal.nullV)) =
      (((connectedLines gs dot).map Prod.fst).map fun k =>
        (GPath.lineP k, GVal.nullV)) := by
    rw [List.map_map]
    rfl
  rw [foldl_applyGUpdate_box_segment, hscore, foldl_applyGUpdate_score_segment,
    hlines, foldl_applyGUpdate_line_segment, foldl_aremove_eq_filter,
    foldl_aremove_eq_filter]

/-! ### The score/box-count invariant -/

lemma inv_init (gs : GameState) (h : InitialState gs) : Inv gs := by
  obtain ⟨hb, -, hs, hlen, hpc, hcpi⟩ := h
  refine ⟨hlen, hpc, hcpi, ?_, ?_, ?_⟩
  · rw [NodupKeys, hb]
    exact List.nodup_nil
  · rw [hb]
    intro p hp
    cases hp
  · intro j hj
    have hjlen : j < gs.playersArray.length := by
      rw [hlen]
      exact hj
    unfold scoreOfL
    rw [List.getElem?_eq_getElem hjlen]
    have hmem : gs.playersArray[j] ∈ gs.playersArray := List.getElem_mem hjlen
    unfold ownedCount
    rw [hb]
    simp [hs _ hmem]

lemma inv_sum (gs : GameState) (h : Inv gs) :
    sumScores gs = (gs.boxes.length : Int) := by
  obtain ⟨hlen, hpc, -, -, hown, hsc⟩ := h
  unfold sumScores
  rw [sum_map_score, hlen]
  rw [Finset.sum_congr rfl fun j hj => hsc j (Finset.mem_range.mp hj)]
  rw [← Nat.cast_sum]
  congr 1
  simp only [ownedCount]
  rw [sum_countP_owner]
  exact countP_eq_length_of_all _ _ fun p hp => decide_eq_true (hown p hp)

lemma inv_move (gs : GameState) (i : Nat) (sab : SabotageState) (row col : Nat)
    (dir : Dir) (shuffle : List RC → List RC) (u : MoveUpdates)
    (hInv : Inv gs)
    (h : handleLineDrawAttempt gs i sab row col dir shuffle = some u) :
    Inv (applyMoveUpdates gs u) := by
  obtain ⟨hmt, -, hu⟩ := handle_eq_some gs i sab row col dir shuffle u h
  subst hu
  obtain ⟨hlen, hpc, hcpi, hnd, hown, hsc⟩ := hInv
  have hieq : gs.currentPlayerIndex = i := by
    unfold isMyTurn at hmt
    rw [Bool.and_eq_true, decide_eq_true_eq, decide_eq_true_eq] at hmt
    exact hmt.2
  have hipc : i < gs.playerCount := hieq ▸ hcpi
  have hilen : i < gs.playersArray.length := by
    rw [hlen]
    exact hipc
  have hplen : (applyMoveUpdates gs (processMove gs i row col dir shuffle)).playersArray.length =
      gs.playersArray.length := by
    show (match (processMove gs i row col dir shuffle).bankedTurnsUpdate with
      | some w => setPlayerBanked (match (processMove gs i row col dir shuffle).scoreUpdate with
          | some w' => setPlayerScore gs.playersArray (processMove gs i row col dir shuffle).playerIdx w'
          | none => gs.playersArray) (processMove gs i row col dir shuffle).playerIdx w
      | none => (match (processMove gs i row col dir shuffle).scoreUpdate with
          | some w' => setPlayerScore gs.playersArray (processMove gs i row col dir shuffle).playerIdx w'
          | none => gs.playersArray)).length = gs.playersArray.length
    cases (processMove gs i row col dir shuffle).bankedTurnsUpdate <;>
      cases (processMove gs i row col dir shuffle).scoreUpdate <;>
        simp [length_setPlayerBanked, length_setPlayerScore]
  have hpscoreL : ∀ j, scoreOfL (applyMoveUpdates gs (processMove gs i row col dir shuffle)).playersArray j =
      (match (processMove gs i row col dir shuffle).scoreUpdate with
       | some w => if j = i then w else scoreOfL gs.playersArray j
       | none => scoreOfL gs.playersArray j) := by
    intro j
    show scoreOfL (match (processMove gs i row col dir shuffle).bankedTurnsUpdate with
      | some w => setPlayerBanked (match (processMove gs i row col dir shuffle).scoreUpdate with
          | some w' => setPlayerScore gs.playersArray (processMove gs i row col dir shuffle).playerIdx w'
          | none => gs.playersArray) (processMove gs i row col dir shuffle).playerIdx w
      | none => (match (processMove gs i row col dir shuffle).scoreUpdate with
          | some w' => setPlayerScore gs.playersArray (processMove gs i row col dir shuffle).playerIdx w'
          | none => gs.playersArray)) j = _
    rw [processMove_playerIdx]
    cases (processMove gs i row col dir shuffle).bankedTurnsUpdate <;>
      cases (processMove gs i row col dir shuffle).scoreUpdate <;>
        simp only [scoreOfL_setPlayerBanked]
    case none.some w =>
      by_cases hj : j = i
      · subst hj
        simp [scoreOfL_setPlayerScore_self gs.playersArray j w hilen]
      · simp [hj, scoreOfL_setPlayerScore_ne gs.playersArray i j w hj]
    case some.some w' w =>
      by_cases hj : j = i
      · subst hj
        simp [scoreOfL_setPlayerScore_self gs.playersArray j w hilen]
      · simp [hj, scoreOfL_setPlayerScore_ne gs.playersArray i j w hj]
  have hboxes : (applyMoveUpdates gs (processMove gs i row col dir shuffle)).boxes =
      (processMove gs i row col dir shuffle).boxUpdates.reverse ++ gs.boxes := by
    show (processMove gs i row col dir shuffle).boxUpdates.foldl
      (fun b p => ainsert p.1 p.2 b) gs.boxes = _
    refine foldl_ainsert_fresh _ _ ?_ ?_
    · intro p hp
      rw [processMove_boxUpdates] at hp
      obtain ⟨b, hb, rfl⟩ := List.mem_map.mp hp
      exact (findCompletedBoxes_mem hb).1
    · rw [processMove_boxUpdates]
      unfold NodupKeys
      rw [List.map_map]
      exact findCompletedBoxes_keys_nodup gs i row col dir
  have hfresh : ∀ p ∈ (processMove gs i row col dir shuffle).boxUpdates,
      alookup p.1 gs.boxes = none := by
    intro p hp
    rw [processMove_boxUpdates] at hp
    obtain ⟨b, hb, rfl⟩ := List.mem_map.mp hp
    exact (findCompletedBoxes_mem hb).1
  have hcount : ∀ q : RC × BoxVal → Bool,
      (applyMoveUpdates gs (processMove gs i row col dir shuffle)).boxes.countP q =
        (processMove gs i row col dir shuffle).boxUpdates.countP q +
          gs.boxes.countP q := by
    intro q
    rw [hboxes, List.countP_append]
    congr 1
    exact ((processMove gs i row col dir shuffle).boxUpdates.reverse_perm).countP_eq q
  have hcntBU : ∀ j, (processMove gs i row col dir shuffle).boxUpdates.countP
      (fun p => decide (p.2.ownerId = j)) =
        if i = j then (findCompletedBoxes gs i row col dir).length else 0 := by
    intro j
    rw [processMove_boxUpdates, List.countP_map]
    by_cases hij : i = j
    · rw [if_pos hij]
      refine countP_eq_length_of_all _ _ ?_
      intro b _
      simp [Function.comp, hij]
    · rw [if_neg hij]
      rw [List.countP_eq_zero]
      intro b _
      simp [Function.comp, hij]
  have hcpiu : (processMove gs i row col dir shuffle).currentPlayerIndexUpdate = none ∨
      (processMove gs i row col dir shuffle).currentPlayerIndexUpdate =
        some ((gs.currentPlayerIndex + 1) % gs.playerCount) := by
    rw [processMove_cpiUpdate]
    split
    · exact Or.inr rfl
    · split
      · exact Or.inl rfl
      · split
        · exact Or.inl rfl
        · exact Or.inr rfl
  refine ⟨?_, hpc, ?_, ?_, ?_, ?_⟩
  · show (applyMoveUpdates gs (processMove gs i row col dir shuffle)).playersArray.length =
      gs.playerCount
    rw [hplen]
    exact hlen
  · show ((processMove gs i row col dir shuffle).currentPlayerIndexUpdate).getD
      gs.currentPlayerIndex < gs.playerCount
    rcases hcpiu with hc | hc <;> rw [hc]
    · exact hcpi
    · exact Nat.mod_lt _ hpc
  · unfold NodupKeys
    rw [hboxes, List.map_append, List.map_reverse]
    rw [List.nodup_append]
    refine ⟨List.nodup_reverse.mpr ?_, hnd, ?_⟩
    · have := findCompletedBoxes_keys_nodup gs i row col dir
      rw [processMove_boxUpdates, List.map_map]
      exact this
    · intro a ha hb
      rw [List.mem_reverse] at ha
      obtain ⟨p, hp, rfl⟩ := List.mem_map.mp ha
      exact (alookup_none_iff_not_mem_keys.mp (hfresh p hp)) hb
  · intro p hp
    rw [hboxes] at hp
    rcases List.mem_append.mp hp with hp | hp
    · rw [List.mem_reverse, processMove_boxUpdates] at hp
      obtain ⟨b, hb, rfl⟩ := List.mem_map.mp hp
      exact hipc
    · exact hown p hp
  · intro j hj
    rw [hpscoreL j]
    have hcnt : ownedCount (applyMoveUpdates gs (processMove gs i row col dir shuffle)) j =
        (if i = j then (findCompletedBoxes gs i row col dir).length else 0) +
          ownedCount gs j := by
      unfold ownedCount
      rw [hcount, hcntBU]
    rw [hcnt]
    rw [processMove_scoreUpdate]
    by_cases hemp : (findCompletedBoxes gs i row col dir).isEmpty
    · rw [if_pos hemp]
      dsimp only
      have hzero : (findCompletedBoxes gs i row col dir).length = 0 := by
        rw [List.isEmpty_iff] at hemp
        rw [hemp]
        rfl
      rw [hzero]
      simp only [ite_self, Nat.zero_add]
      exact hsc j hj
    · rw [if_neg hemp]
      dsimp only
      by_cases hj2 : j = i
      · subst hj2
        rw [if_pos rfl, if_pos rfl]
        rw [scoreOf_eq_scoreOfL, hsc j hj]
        push_cast
        ring
      · rw [if_neg hj2, if_neg fun hh => hj2 hh.symm]
        simp only [Nat.zero_add]
        exact hsc j hj

lemma alookup_map_pair (l : List (Nat × Nat)) (g : Nat → Nat → Int) (j : Nat) :
    alookup j (l.map fun p => (p.1, g p.1 p.2)) =
      (alookup j l).map fun d => g j d := by
  induction l with
  | nil => rfl
  | cons p t ih =>
    by_cases hp : p.1 = j
    · simp [alookup, hp]
    · simp [alookup, hp, ih]

lemma inv_sabotage (gs : GameState) (dot : RC) (hInv : Inv gs) :
    Inv (applySabotage gs dot) := by
  obtain ⟨hlen, hpc, hcpi, hnd, hown, hsc⟩ := hInv
  rw [applySabotage_eq]
  have hremN : (sabotageRemovals gs dot).Nodup := by
    unfold sabotageRemovals
    exact (nodup_foldl_addUnique _ [] List.nodup_nil).filter _
  have hremP : ∀ k ∈ sabotageRemovals gs dot, (alookup k gs.boxes).isSome = true := by
    intro k hk
    exact (List.mem_filter.mp hk).2
  have hslkeys : NodupKeys ((calcDeductions gs (sabAffectedBoxes gs dot)).map
      fun p => (p.1, max 0 (scoreOf gs p.1 - (p.2 : Int)))) := by
    unfold NodupKeys
    rw [List.map_map]
    exact calcDeductions_nodup gs (sabAffectedBoxes gs dot)
  have hslrange : ∀ p ∈ ((calcDeductions gs (sabAffectedBoxes gs dot)).map
      fun p => (p.1, max 0 (scoreOf gs p.1 - (p.2 : Int)))),
      p.1 < gs.playersArray.length := by
    intro p hp
    obtain ⟨q, hq, rfl⟩ := List.mem_map.mp hp
    have hqpos : 0 < q.2 := calcDeductions_pos gs (sabAffectedBoxes gs dot) q hq
    have hql : alookup q.1 (calcDeductions gs (sabAffectedBoxes gs dot)) = some q.2 := by
      refine alookup_of_mem_nodup (calcDeductions_nodup gs _) ?_
      exact hq
    have hcount := calcDeductions_lookupD gs (sabAffectedBoxes gs dot) q.1
    rw [hql] at hcount
    simp only [Option.getD_some] at hcount
    have : 0 < (sabAffectedBoxes gs dot).countP
        fun k => decide (ownerAt gs k = some q.1) := by
      rw [← hcount]
      exact hqpos
    obtain ⟨k, -, hk2⟩ := List.countP_pos_iff.mp this
    rw [decide_eq_true_eq] at hk2
    unfold ownerAt at hk2
    obtain ⟨b, hb, hb2⟩ := Option.map_eq_some'.mp hk2
    have := hown (k, b) (alookup_mem hb)
    rw [hlen]
    rw [← hb2]
    exact this
  have hsl := fun j => alookup_map_pair (calcDeductions gs (sabAffectedBoxes gs dot))
    (fun a d => max 0 (scoreOf gs a - (d : Int))) j
  have hlost : ∀ j, sabLostCount gs dot j =
      gs.boxes.countP fun p =>
        decide (p.2.ownerId = j) && decide (p.1 ∈ sabotageRemovals gs dot) := by
    intro j
    have h1 := countP_keys_entries gs.boxes (sabotageRemovals gs dot) hnd hremN hremP
      (fun p => decide (p.2.ownerId = j))
    have h2 : sabLostCount gs dot j = (sabotageRemovals gs dot).countP
        (fun k => match alookup k gs.boxes with
          | some v => decide (v.ownerId = j)
          | none => false) := by
      unfold sabLostCount
      refine List.countP_congr ?_
      intro k _
      unfold ownerAt
      cases hk : alookup k gs.boxes <;> simp [hk]
    rw [h2, h1]
    refine List.countP_congr ?_
    intro p _
    by_cases e1 : p.1 ∈ sabotageRemovals gs dot <;>
      by_cases e2 : p.2.ownerId = j <;> simp [e1, e2]
  have hlostle : ∀ j, ownedCount gs j =
      sabLostCount gs dot j +
        gs.boxes.countP (fun p =>
          decide (p.2.ownerId = j) && !decide (p.1 ∈ sabotageRemovals gs dot)) := by
    intro j
    rw [hlost j]
    exact countP_split gs.boxes _ fun p => decide (p.1 ∈ sabotageRemovals gs dot)
  have hpostcount : ∀ j,
      (gs.boxes.filter fun p => decide (p.1 ∉ sabotageRemovals gs dot)).countP
        (fun p => decide (p.2.ownerId = j)) =
      gs.boxes.countP (fun p =>
        decide (p.2.ownerId = j) && !decide (p.1 ∈ sabotageRemovals gs dot)) := by
    intro j
    rw [List.countP_filter]
    refine List.countP_congr ?_
    intro p _
    by_cases e1 : p.1 ∈ sabotageRemovals gs dot <;>
      by_cases e2 : p.2.ownerId = j <;> simp [e1, e2]
  refine ⟨?_, hpc, hcpi, ?_, ?_, ?_⟩
  · show (((calcDeductions gs (sabAffectedBoxes gs dot)).map fun p =>
      (p.1, max 0 (scoreOf gs p.1 - (p.2 : Int)))).foldl
        (fun pl p => setPlayerScore pl p.1 p.2) gs.playersArray).length = gs.playerCount
    rw [length_foldl_setScore]
    exact hlen
  · unfold NodupKeys
    refine hnd.sublist ?_
    exact (gs.boxes.filter_sublist).map Prod.fst
  · intro p hp
    exact hown p (List.mem_of_mem_filter hp)
  · intro j hj
    have hpost := scoreOfL_foldl_setScore
      ((calcDeductions gs (sabAffectedBoxes gs dot)).map
        fun p => (p.1, max 0 (scoreOf gs p.1 - (p.2 : Int))))
      gs.playersArray hslkeys hslrange j
    dsimp only [ownedCount] at hj ⊢
    rw [hpost, hsl j, hpostcount j]
    cases hdl : alookup j (calcDeductions gs (sabAffectedBoxes gs dot)) with
    | none =>
      simp only [Option.map_none']
      have hzero : sabLostCount gs dot j = 0 := by
        have := calcDeductions_lookupD gs (sabAffectedBoxes gs dot) j
        rw [hdl] at this
        simp only [Option.getD_none] at this
        rw [sabLostCount_eq_affected]
        omega
      have := hlostle j
      rw [hzero, Nat.zero_add] at this
      rw [← this]
      exact hsc j hj
    | some d =>
      simp only [Option.map_some']
      have hd : sabLostCount gs dot j = d := by
        have := calcDeductions_lookupD gs (sabAffectedBoxes gs dot) j
        rw [hdl] at this
        simp only [Option.getD_some] at this
        rw [sabLostCount_eq_affected]
        omega
      have hsplit := hlostle j
      rw [hd] at hsplit
      have hscj := hsc j hj
      rw [scoreOf_eq_scoreOfL] at *
      rw [hscj]
      rw [max_eq_right (by
        rw [hsplit]
        push_cast
        omega)]
      rw [hsplit]
      push_cast
      ring

/-! ### C2: sum of scores equals the number of completed boxes -/

lemma reachable_inv (gs : GameState) (h : Reachable gs) : Inv gs := by
  induction h with
  | init gs hinit => exact inv_init gs hinit
  | move gs localPlayerIndex sab row col dir shuffle u hr hmove ih =>
    exact inv_move gs localPlayerIndex sab row col dir shuffle u ih hmove
  | sabotage gs dot hr ih => exact inv_sabotage gs dot ih

/-- C2.  In every reachable game state — starting from an empty board with
all scores 0 and stepping by accepted move processing and by the sabotage
rollback — the sum of all players' scores equals the number of entries in
the box map. -/
theorem reachable_sum_scores_eq_boxes
    (gs : GameState) (h : Reachable gs) :
    sumScores gs = (gs.boxes.length : Int) :=
  inv_sum gs (reachable_inv gs h)

/-- Witness for C2 at a concrete initial 2-player state. -/
theorem reachable_sum_scores_eq_boxes_witness :
    sumScores
      { gridSize := 6, playerCount := 2
        playersArray := [⟨0, 0⟩, ⟨0, 0⟩]
        currentPlayerIndex := 0, status := GStatus.active
        lines := [], boxes := [], specialSquares := ⟨[⟨2, 2⟩], [⟨0, 3⟩]⟩ } =
      (({ gridSize := 6, playerCount := 2
          playersArray := [⟨0, 0⟩, ⟨0, 0⟩]
          currentPlayerIndex := 0, status := GStatus.active
          lines := [], boxes := [],
          specialSquares := ⟨[⟨2, 2⟩], [⟨0, 3⟩]⟩ } : GameState).boxes.length : Int) :=
  reachable_sum_scores_eq_boxes _
    (Reachable.init _ ⟨rfl, rfl, by decide, rfl, by decide, by decide⟩)

end DotsAndLines
